import Mathlib

/-
Shallow embedding of the core of the Proyecto_QR repository
(src/escaner.py, src/salida.py, src/generacionEimpresion.py).

Python strings are modelled as `List Char` (with `String` wrappers where a
source function takes a `str`); the PostgreSQL tables are modelled as lists of
row structures carried in an explicit state; functions that raise exceptions
return `Except`, and the stateful operations return the (possibly mutated)
state together with the outcome, reflecting the autocommit-per-statement
behaviour of the source (`conn.autocommit = True`): a raised exception does
not undo statements already executed.
-/

namespace ProyectoQR

instance {ε α : Type} [DecidableEq ε] [DecidableEq α] :
    DecidableEq (Except ε α) := fun a b =>
  match a, b with
  | Except.ok x, Except.ok y =>
    if h : x = y then isTrue (by rw [h])
    else isFalse (fun hh => h (by injection hh))
  | Except.error x, Except.error y =>
    if h : x = y then isTrue (by rw [h])
    else isFalse (fun hh => h (by injection hh))
  | Except.ok _, Except.error _ => isFalse (fun hh => by injection hh)
  | Except.error _, Except.ok _ => isFalse (fun hh => by injection hh)

/- ## Character-level helpers (Python str methods used by the sources) -/

/-- Whitespace characters recognised by Python's `str.strip()` (ASCII part). -/
def isPyWS (c : Char) : Bool :=
  c == ' ' || c == '\t' || c == '\n' || c == '\r' || c == Char.ofNat 11 || c == Char.ofNat 12

/-- Python `str.strip()`. -/
def trimChars (l : List Char) : List Char :=
  ((l.dropWhile isPyWS).reverse.dropWhile isPyWS).reverse

/-- Python `str.upper()` (ASCII). -/
def upperChars (l : List Char) : List Char :=
  l.map Char.toUpper

/-- Python `str.lower()` (ASCII). -/
def lowerChars (l : List Char) : List Char :=
  l.map Char.toLower

/-- The decimal digit characters. -/
def digitChar (d : Nat) : Char :=
  match d with
  | 0 => '0' | 1 => '1' | 2 => '2' | 3 => '3' | 4 => '4'
  | 5 => '5' | 6 => '6' | 7 => '7' | 8 => '8' | _ => '9'

/-- Numeric value of a digit character. -/
def digitVal (c : Char) : Nat :=
  c.toNat - 48

/-- Fuel-based helper for `natToChars` (structural recursion, so that the
kernel can evaluate it). -/
def natToCharsAux : Nat → Nat → List Char
  | 0, _ => []
  | fuel + 1, n =>
    if n < 10 then [digitChar n]
    else natToCharsAux fuel (n / 10) ++ [digitChar (n % 10)]

/-- Decimal rendering of a natural number (Python `str(n)` for `n ≥ 0`). -/
def natToChars (n : Nat) : List Char :=
  natToCharsAux (n + 1) n

/-- Python `str(int)` rendering, including the sign. -/
def renderInt (i : Int) : List Char :=
  if i < 0 then '-' :: natToChars i.natAbs else natToChars i.natAbs

/-- Left zero-padding to width `k` (Python `"%0kd"` on a nonnegative value). -/
def padZeros (k : Nat) (l : List Char) : List Char :=
  List.replicate (k - l.length) '0' ++ l

def pad2 (n : Nat) : List Char := padZeros 2 (natToChars n)

def pad4 (n : Nat) : List Char := padZeros 4 (natToChars n)

def pad6 (n : Nat) : List Char := padZeros 6 (natToChars n)

/-- Value of a digit string, most significant digit first. -/
def digitsValue (l : List Char) : Nat :=
  l.foldl (fun a c => 10 * a + digitVal c) 0

/-- Value of a digit string if it is nonempty and all digits, else `none`. -/
def digitsValQ (l : List Char) : Option Nat :=
  if !l.isEmpty && l.all Char.isDigit then some (digitsValue l) else none

/-- Sign handling of Python `int(str)` on the already-stripped string. -/
def pyIntCore : List Char → Option Int
  | [] => none
  | c :: rest =>
    if c = '+' then (digitsValQ rest).map (fun n => (n : Int))
    else if c = '-' then (digitsValQ rest).map (fun n => -(n : Int))
    else (digitsValQ (c :: rest)).map (fun n => (n : Int))

/-- Python `int(str)` on a plain decimal string: optional surrounding
whitespace, optional sign, decimal digits (the underscore-separator extension
of Python literals is not modelled; the payloads in play never use it). -/
def pyIntChars (l : List Char) : Option Int :=
  pyIntCore (trimChars l)

/-- Python `str.split(sep)` for a one-character separator: splits at every
occurrence, keeping empty pieces. -/
def splitOnC (sep : Char) : List Char → List (List Char)
  | [] => [[]]
  | c :: cs =>
    match splitOnC sep cs with
    | [] => [[]]
    | h :: t => if c == sep then [] :: h :: t else (c :: h) :: t

/-- Python `str.split(sep, 1)` for a one-character separator, on a string
known to contain the separator: the part before the first occurrence and the
rest. -/
def splitFirst (sep : Char) : List Char → List Char × List Char
  | [] => ([], [])
  | c :: cs =>
    if c == sep then ([], cs)
    else
      let p := splitFirst sep cs
      (c :: p.1, p.2)

/-- `str.strip()` through the `String` wrapper. -/
def pyStrip (s : String) : String :=
  String.mk (trimChars s.data)

/-- `str.upper().strip()` through the `String` wrapper. -/
def strUpperTrim (s : String) : String :=
  String.mk (upperChars (trimChars s.data))

/- ## A generic insertion sort (model of SQL `ORDER BY`) -/

def insertSorted {α : Type} (le : α → α → Bool) (a : α) : List α → List α
  | [] => [a]
  | b :: bs => if le a b then a :: b :: bs else b :: insertSorted le a bs

def sortL {α : Type} (le : α → α → Bool) : List α → List α
  | [] => []
  | a :: as => insertSorted le a (sortL le as)

/- ## Decimal-literal model of Python `float` parsing

`normalize_id_value` calls `float(s)` and, when the value is an integer,
renders it back with `str(int(f))`.  We model `float` parsing on plain
decimal literals (optional sign, digits, optional fraction; exponent forms,
underscores and inf are not modelled — such inputs simply fall through to the
"return `s` unchanged" branch, as non-integer floats do in the source).  On
integer-valued decimal literals this model is exact. -/

def parseDecimal (s : List Char) : Option (Bool × List Char × List Char) :=
  let p : Bool × List Char :=
    match s with
    | '+' :: t => (false, t)
    | '-' :: t => (true, t)
    | t => (false, t)
  let intPart := p.2.takeWhile Char.isDigit
  let rest := p.2.dropWhile Char.isDigit
  match rest with
  | [] => if intPart.isEmpty then none else some (p.1, intPart, [])
  | '.' :: frac =>
    if frac.all Char.isDigit && !(intPart.isEmpty && frac.isEmpty) then
      some (p.1, intPart, frac)
    else none
  | _ => none

/-- `str(int(float(s)))` when `float(s)` parses (as a decimal literal) and
`f.is_integer()` holds; `none` otherwise. -/
def pyFloatIntRender (s : List Char) : Option (List Char) :=
  match parseDecimal s with
  | none => none
  | some (neg, intDigits, fracDigits) =>
    if fracDigits.all (fun c => c == '0') then
      let v : Int := (digitsValue intDigits : Int)
      some (renderInt (if neg then -v else v))
    else none

/- ## escaner.py -/

namespace Escaner

open ProyectoQR

/-- `normalize_id_value` (escaner.py) on the character-list model. -/
def normalizeIdChars (x : List Char) : List Char :=
  let s := trimChars x
  if s.isEmpty then []
  else if lowerChars s = ['n', 'a', 'n'] then []
  else
    match pyFloatIntRender s with
    | some r => r
    | none => s

def normalize_id_value (x : String) : String :=
  String.mk (normalizeIdChars x.data)

/-- Gregorian leap year. -/
def isLeap (y : Nat) : Bool :=
  y % 4 == 0 && (y % 100 != 0 || y % 400 == 0)

def daysInMonth (y m : Nat) : Nat :=
  if m == 2 then (if isLeap y then 29 else 28)
  else if m == 4 || m == 6 || m == 9 || m == 11 then 30
  else 31

/-- `datetime.strptime(s, "%d/%m/%y").date()`: day/month/2-digit-year, each
component 1–2 digits, with the C89 two-digit-year rule (00–68 → 2000s,
69–99 → 1900s) and calendar validation. -/
def strptime_dmy (s : List Char) : Option (Nat × Nat × Nat) :=
  match splitOnC '/' s with
  | [ds, ms, ys] =>
    if !ds.isEmpty && ds.length ≤ 2 && ds.all Char.isDigit &&
       !ms.isEmpty && ms.length ≤ 2 && ms.all Char.isDigit &&
       !ys.isEmpty && ys.length ≤ 2 && ys.all Char.isDigit then
      let d := digitsValue ds
      let m := digitsValue ms
      let yy := digitsValue ys
      let y := if yy ≤ 68 then 2000 + yy else 1900 + yy
      if 1 ≤ m && m ≤ 12 && 1 ≤ d && d ≤ daysInMonth y m then some (y, m, d)
      else none
    else none
  | _ => none

/-- `date.isoformat()`. -/
def isoChars (y m d : Nat) : List Char :=
  pad4 y ++ '-' :: pad2 m ++ '-' :: pad2 d

/-- `normalize_date_iso` (escaner.py) on the character-list model. -/
def normalizeDateChars (x : List Char) : List Char :=
  if x.isEmpty then []
  else
    let s := trimChars x
    if s.contains '/' then
      match strptime_dmy s with
      | some (y, m, d) => isoChars y m d
      | none => s
    else s

def normalize_date_iso (x : String) : String :=
  String.mk (normalizeDateChars x.data)

/- ### The ledger state (schema `stock`) -/

/-- A row of `stock.productos`. -/
structure Producto where
  idProducto : Int
  descripcion : String
deriving DecidableEq

/-- A row of `stock.stock_pp` (an inbound range). -/
structure RangeRow where
  id : Nat
  idProducto : Int
  lote : String
  serieInicio : Int
  serieFin : Int
  packsFin : Int
deriving DecidableEq

/-- A row of `stock.salidas_qr` (an outbound movement). -/
structure SalidaRow where
  idProducto : Int
  lote : String
  nroSerie : Int
  unitType : String
  packsQty : Int
deriving DecidableEq

/-- The `stock` sub-object of a Sheets payload
(`build_payload_for_product_lote_net`; the constant `api_key` and the
wall-clock `timestamp` are not part of the state model). -/
structure SheetsPayload where
  idProducto : Int
  descripcion : String
  lote : String
  stockPallets : Int
  stockPacks : Int
deriving DecidableEq

/-- The database state seen by escaner.py. -/
structure PGState where
  productos : List Producto
  stockPP : List RangeRow
  salidas : List SalidaRow
  outbox : List (Nat × SheetsPayload)
  seqOutbox : Nat
deriving DecidableEq

/-- The `WHERE id_producto = %s AND lote = %s` filter on `stock_pp`. -/
def scopeB (pid : Int) (lote : String) (r : RangeRow) : Bool :=
  r.idProducto == pid && r.lote == lote

/-- Pallet contribution of one range:
`(serie_fin - serie_inicio + 1) - CASE WHEN packs_fin > 0 THEN 1 ELSE 0 END`. -/
def pallContrib (r : RangeRow) : Int :=
  r.serieFin - r.serieInicio + 1 - (if 0 < r.packsFin then 1 else 0)

/-- `SUM` of pallet contributions over the scoped ranges. -/
def inPallets (st : PGState) (pid : Int) (lote : String) : Int :=
  ((st.stockPP.filter (scopeB pid lote)).map pallContrib).sum

/-- `SUM(packs_fin)` over the scoped ranges. -/
def inPacks (st : PGState) (pid : Int) (lote : String) : Int :=
  ((st.stockPP.filter (scopeB pid lote)).map (fun r => r.packsFin)).sum

/-- `SELECT descripcion FROM productos WHERE id_producto = %s` + `fetchone`,
then `str(desc).strip()` with `""` when no row. -/
def descOf (st : PGState) (pid : Int) : String :=
  pyStrip ((((st.productos.filter (fun p => p.idProducto == pid)).head?).map
    (fun p => p.descripcion)).getD "")

/-- `compute_ingresos_totals` (escaner.py). -/
def compute_ingresos_totals (st : PGState) (pid : Int) (lote : String) :
    Int × Int × String :=
  (inPallets st pid lote, inPacks st pid lote, descOf st pid)

/-- `SUM(CASE WHEN unit_type = 'pallet' THEN 1 ELSE 0 END)` over the scoped
outbound movements. -/
def outPallets (st : PGState) (pid : Int) (lote : String) : Int :=
  ((st.salidas.filter (fun s => s.idProducto == pid && s.lote == lote)).map
    (fun s => if s.unitType == "pallet" then (1 : Int) else 0)).sum

/-- `SUM(CASE WHEN unit_type = 'packs' THEN packs_qty ELSE 0 END)` over the
scoped outbound movements. -/
def outPacks (st : PGState) (pid : Int) (lote : String) : Int :=
  ((st.salidas.filter (fun s => s.idProducto == pid && s.lote == lote)).map
    (fun s => if s.unitType == "packs" then s.packsQty else 0)).sum

/-- `compute_salidas_totals` (escaner.py). -/
def compute_salidas_totals (st : PGState) (pid : Int) (lote : String) :
    Int × Int :=
  (outPallets st pid lote, outPacks st pid lote)

/-- `compute_net_stock` (escaner.py). -/
def compute_net_stock (st : PGState) (pid : Int) (lote : String) :
    Int × Int × String :=
  let t := compute_ingresos_totals st pid lote
  let s := compute_salidas_totals st pid lote
  (t.1 - s.1, t.2.1 - s.2, t.2.2)

/-- Net stock of the requested unit type, as `eliminar_batch_ultimos` reads
it. -/
def netOf (st : PGState) (pid : Int) (lote : String) (ut : String) : Int :=
  if ut == "pallet" then (compute_net_stock st pid lote).1
  else (compute_net_stock st pid lote).2.1

/-- `build_payload_for_product_lote_net` (the state-derived `stock` part). -/
def build_payload_for_product_lote_net (st : PGState) (pid : Int)
    (lote : String) : SheetsPayload :=
  let n := compute_net_stock st pid lote
  ⟨pid, n.2.2, lote, n.1, n.2.1⟩

/-- `queue_outbox` (escaner.py): a durable local insert with a fresh serial
id. -/
def queue_outbox (st : PGState) (payload : SheetsPayload) : PGState :=
  { st with outbox := st.outbox ++ [(st.seqOutbox, payload)],
            seqOutbox := st.seqOutbox + 1 }

/-- `get_last_ingreso_ranges` (escaner.py): scoped ranges
`ORDER BY serie_fin DESC`. -/
def get_last_ingreso_ranges (st : PGState) (pid : Int) (lote : String) :
    List RangeRow :=
  sortL (fun a b => decide (b.serieFin ≤ a.serieFin))
    (st.stockPP.filter (scopeB pid lote))

/-- `adjust_or_delete_range` (escaner.py): `UPDATE` of the provided columns
when at least one new value is given, otherwise `DELETE`. -/
def adjust_or_delete_range (st : PGState) (rowId : Nat)
    (newSerieFin newPacksFin : Option Int) : PGState :=
  match newSerieFin, newPacksFin with
  | none, none =>
    { st with stockPP := st.stockPP.filter (fun r => r.id != rowId) }
  | nf, np =>
    { st with stockPP := st.stockPP.map (fun r =>
        if r.id == rowId then
          { r with serieFin := nf.getD r.serieFin,
                   packsFin := np.getD r.packsFin }
        else r) }

/-- The `COUNT(*)` of `check_if_range_has_salidas`
(`nro_serie BETWEEN inicio AND fin` on the scoped movements). -/
def countSalidasBetween (st : PGState) (pid : Int) (lote : String)
    (inicio fin : Int) : Nat :=
  (st.salidas.filter (fun s =>
    s.idProducto == pid && s.lote == lote &&
    decide (inicio ≤ s.nroSerie) && decide (s.nroSerie ≤ fin))).length

/-- The domain errors raised by `eliminar_batch_ultimos` (as `ValueError`s in
the source, tagged here by their messages). -/
inductive ElimErr where
  | insufficientPallets (net cantidad : Int)
  | insufficientPacks (net cantidad : Int)
  | badUnitType
  | noRanges
  | rangeHasSalidas (count : Nat)
  | incomplete (faltan : Int)
deriving DecidableEq

def ElimErr.isInsufficient : ElimErr → Bool
  | .insufficientPallets _ _ => true
  | .insufficientPacks _ _ => true
  | _ => false

/-- The `while remaining > 0 and i < len(ranges)` walk of
`eliminar_batch_ultimos`, over the snapshot of ranges fetched once.  Each
range mutation commits immediately (autocommit), so on the
`check_if_range_has_salidas` exception the state mutated so far is kept. -/
def elimWalk (pid : Int) (lote : String) (ut : String) :
    List RangeRow → Int → PGState → List Nat →
    PGState × Except ElimErr (Int × List Nat)
  | [], remaining, st, acc => (st, Except.ok (remaining, acc.reverse))
  | r :: rest, remaining, st, acc =>
    if remaining ≤ 0 then (st, Except.ok (remaining, acc.reverse))
    else if 0 < countSalidasBetween st pid lote r.serieInicio r.serieFin then
      (st, Except.error (ElimErr.rangeHasSalidas
        (countSalidasBetween st pid lote r.serieInicio r.serieFin)))
    else if ut == "packs" then
      if r.packsFin == 0 then elimWalk pid lote ut rest remaining st acc
      else
        let reduceBy := min remaining r.packsFin
        let st2 := adjust_or_delete_range st r.id none (some (r.packsFin - reduceBy))
        elimWalk pid lote ut rest (remaining - reduceBy) st2 (r.id :: acc)
    else
      let pir := pallContrib r
      if pir ≤ 0 then elimWalk pid lote ut rest remaining st acc
      else
        let reduceBy := min remaining pir
        let st2 :=
          if reduceBy == pir then adjust_or_delete_range st r.id none none
          else adjust_or_delete_range st r.id (some (r.serieFin - reduceBy)) none
        elimWalk pid lote ut rest (remaining - reduceBy) st2 (r.id :: acc)

/-- The `if unit_type == 'pallet' ... elif ... else raise` prologue of
`eliminar_batch_ultimos`. -/
def stock_guard (ut : String) (netP netPk cantidad : Int) : Option ElimErr :=
  if ut == "pallet" then
    (if netP < cantidad then some (ElimErr.insufficientPallets netP cantidad) else none)
  else if ut == "packs" then
    (if netPk < cantidad then some (ElimErr.insufficientPacks netPk cantidad) else none)
  else some ElimErr.badUnitType

/-- `eliminar_batch_ultimos` (escaner.py). -/
def eliminar_batch_ultimos (st : PGState) (pid : Int) (lote : String)
    (ut : String) (cantidad : Int) :
    PGState × Except ElimErr (List Nat × Option Int × String) :=
  let net := compute_net_stock st pid lote
  match stock_guard ut net.1 net.2.1 cantidad with
  | some e => (st, Except.error e)
  | none =>
    let ranges := get_last_ingreso_ranges st pid lote
    if ranges.isEmpty then (st, Except.error ElimErr.noRanges)
    else
      match elimWalk pid lote ut ranges cantidad st [] with
      | (st1, Except.error e) => (st1, Except.error e)
      | (st1, Except.ok (remaining, adjusted)) =>
        if 0 < remaining then (st1, Except.error (ElimErr.incomplete remaining))
        else
          let newRanges := get_last_ingreso_ranges st1 pid lote
          let newLast := newRanges.head?.map (fun r => r.serieFin)
          let st2 := queue_outbox st1 (build_payload_for_product_lote_net st1 pid lote)
          (st2, Except.ok (adjusted, newLast, net.2.2))

/- ### Sheets outbox (escaner.py) -/

/-- The decoded shape of a webhook response, as far as `flush_outbox`
inspects it: `isinstance(res, dict)` and `res.get("ok") is True`. -/
inductive JsonTop where
  | dict (okTrue : Bool)
  | nonDict
deriving DecidableEq

/-- Outcome of the HTTP POST in `send_to_sheets`: a transport/HTTP failure
(which the source re-raises), or a body whose JSON decoding succeeded
(`some`) or failed (`none`). -/
inductive WireResult where
  | raised (msg : String)
  | got (parsed : Option JsonTop)
deriving DecidableEq

/-- `send_to_sheets` (escaner.py): raises on transport/HTTP errors, returns
`{"ok": False, "raw": txt}` on an undecodable body, and the decoded value
otherwise. -/
def send_to_sheets (wire : SheetsPayload → WireResult) (p : SheetsPayload) :
    Except String JsonTop :=
  match wire p with
  | WireResult.raised m => Except.error m
  | WireResult.got (some j) => Except.ok j
  | WireResult.got none => Except.ok (JsonTop.dict false)

/-- The `isinstance(res, dict) and res.get("ok") is True` test. -/
def isOkDict : JsonTop → Bool
  | JsonTop.dict b => b
  | JsonTop.nonDict => false

/-- `pop_outbox_batch` (escaner.py): `ORDER BY id ASC LIMIT limit`. -/
def pop_outbox_batch (outbox : List (Nat × SheetsPayload)) (limit : Nat) :
    List (Nat × SheetsPayload) :=
  (sortL (fun a b => decide (a.1 ≤ b.1)) outbox).take limit

/-- `delete_outbox_id` (escaner.py). -/
def delete_outbox_id (outbox : List (Nat × SheetsPayload)) (rid : Nat) :
    List (Nat × SheetsPayload) :=
  outbox.filter (fun r => r.1 != rid)

/-- The `for rid, payload in rows` loop of `flush_outbox`.  An exception from
`send_to_sheets` propagates (`Except.error`), leaving the current queue. -/
def flushLoop (wire : SheetsPayload → WireResult) :
    List (Nat × SheetsPayload) → List (Nat × SheetsPayload) → Nat →
    List (Nat × SheetsPayload) × Except String Nat
  | [], outbox, sent => (outbox, Except.ok sent)
  | (rid, p) :: rest, outbox, sent =>
    match send_to_sheets wire p with
    | Except.error m => (outbox, Except.error m)
    | Except.ok res =>
      if isOkDict res then
        flushLoop wire rest (delete_outbox_id outbox rid) (sent + 1)
      else (outbox, Except.ok sent)

/-- `flush_outbox` (escaner.py); the batch limit is fixed at 50 in the
source. -/
def flush_outbox (wire : SheetsPayload → WireResult)
    (outbox : List (Nat × SheetsPayload)) :
    List (Nat × SheetsPayload) × Except String Nat :=
  flushLoop wire (pop_outbox_batch outbox 50) outbox 0

/-- Modelled from the spec: no code under src/ inserts into
`stock.salidas_qr`; only its DDL exists (`init_tables`, escaner.py), which
declares `CONSTRAINT uq_salidas_qr_qr UNIQUE (id_producto, lote, nro_serie)`.
An `INSERT` therefore fails exactly when a row with the same key already
exists. -/
def insert_salida_qr (rows : List SalidaRow) (r : SalidaRow) :
    Except String (List SalidaRow) :=
  if rows.any (fun s => s.idProducto == r.idProducto && s.lote == r.lote &&
      s.nroSerie == r.nroSerie) then
    Except.error "unique violation"
  else Except.ok (rows ++ [r])

end Escaner

/- ## salida.py -/

namespace Salida

open ProyectoQR

/- ### parse_qr_payload -/

inductive QRErr where
  | camposFaltantes
  | formatoNoReconocido
  | intConv (campo : String)
deriving DecidableEq

structure QRData where
  nroSerie : Int
  idProducto : Int
  lote : List Char
deriving DecidableEq

/-- The `data` dictionary built by `parse_qr_payload`: split the stripped
payload on `|`, keep the segments containing `=`, split each on the first
`=`, strip+uppercase the key and strip the value.  Later segments overwrite
earlier ones (dict assignment), modelled by prepending and first-match
lookup. -/
def qr_fields (raw : List Char) : List (List Char × List Char) :=
  (splitOnC '|' (trimChars raw)).foldl
    (fun m p =>
      if p.contains '=' then
        (upperChars (trimChars (splitFirst '=' p).1),
         trimChars (splitFirst '=' p).2) :: m
      else m) []

/-- `data.get(k)` with Python falsiness: a missing key and an empty value
look the same. -/
def qr_get (raw : List Char) (k : List Char) : List Char :=
  (((qr_fields raw).lookup k)).getD []

/-- `parse_qr_payload` (salida.py). -/
def parseQRChars (raw : List Char) : Except QRErr QRData :=
  let t := trimChars raw
  if t.contains '|' && t.contains '=' then
    let ns := qr_get raw ['N', 'S']
    let prd := qr_get raw ['P', 'R', 'D']
    let lot := qr_get raw ['L', 'O', 'T']
    if ns.isEmpty || prd.isEmpty || lot.isEmpty then
      Except.error QRErr.camposFaltantes
    else
      match pyIntChars ns with
      | none => Except.error (QRErr.intConv "NS")
      | some nsv =>
        match pyIntChars prd with
        | none => Except.error (QRErr.intConv "PRD")
        | some prdv => Except.ok ⟨nsv, prdv, trimChars lot⟩
  else Except.error QRErr.formatoNoReconocido

def parse_qr_payload (raw : String) : Except QRErr QRData :=
  parseQRChars raw.data

/- ### The state seen by salida.py (schema `produccion`) -/

/-- A row of `produccion.productos`. -/
structure ProductoS where
  id : Int
  descripcion : String
deriving DecidableEq

/-- A row of `produccion.stock` (one physical unit per row). -/
structure StockRow where
  idProducto : Int
  lote : String
  nroSerie : Int
  tipoUnidad : String
  packs : Int
deriving DecidableEq

/-- A row of `produccion.productos_bajas` (no `nro_serie` column). -/
structure BajaRow where
  idProducto : Int
  stockLote : String
  cantidad : Int
  motivo : String
  observaciones : Option String
  tipoUnidad : Option String
deriving DecidableEq

/-- A row of `produccion.sheet`. -/
structure SheetRow where
  idProducto : Int
  stockPallets : Int
  stockPacks : Int
deriving DecidableEq

structure SalidaState where
  stock : List StockRow
  bajas : List BajaRow
  productos : List ProductoS
  sheet : List SheetRow
deriving DecidableEq

/-- `qr_exists_in_stock` (salida.py): `LIMIT 1` over the keyed rows, with
`str(tipo).upper().strip()` and `COALESCE(packs, 0)`. -/
def qr_exists_in_stock (st : SalidaState) (pid : Int) (lote : String)
    (ns : Int) : Option (String × Int) :=
  ((st.stock.filter (fun r =>
      r.idProducto == pid && r.lote == lote && r.nroSerie == ns)).head?).map
    (fun r => (strUpperTrim r.tipoUnidad, r.packs))

/-- `COUNT(*)` of stock rows with `tipo_unidad = 'PALLET'` for the lot. -/
def lote_in_pallets (st : SalidaState) (pid : Int) (lote : String) : Int :=
  ((st.stock.filter (fun r =>
    r.idProducto == pid && r.lote == lote && r.tipoUnidad == "PALLET")).length : Int)

/-- `SUM(packs)` of stock rows with `tipo_unidad = 'PACKS'` for the lot. -/
def lote_in_packs (st : SalidaState) (pid : Int) (lote : String) : Int :=
  ((st.stock.filter (fun r =>
    r.idProducto == pid && r.lote == lote && r.tipoUnidad == "PACKS")).map
      (fun r => r.packs)).sum

/-- `SUM(cantidad)` of bajas with `tipo_unidad = 'PALLET' OR tipo_unidad IS
NULL` for the lot. -/
def lote_out_pallets (st : SalidaState) (pid : Int) (lote : String) : Int :=
  ((st.bajas.filter (fun b =>
    b.idProducto == pid && b.stockLote == lote &&
    (b.tipoUnidad == some "PALLET" || b.tipoUnidad == none))).map
      (fun b => b.cantidad)).sum

/-- `SUM(cantidad)` of bajas with `tipo_unidad = 'PACKS'` for the lot. -/
def lote_out_packs (st : SalidaState) (pid : Int) (lote : String) : Int :=
  ((st.bajas.filter (fun b =>
    b.idProducto == pid && b.stockLote == lote &&
    b.tipoUnidad == some "PACKS")).map (fun b => b.cantidad)).sum

/-- `compute_net_available_lote` (salida.py): both differences are clamped at
zero with `max(..., 0)`. -/
def compute_net_available_lote (st : SalidaState) (pid : Int)
    (lote : String) : Int × Int :=
  (max (lote_in_pallets st pid lote - lote_out_pallets st pid lote) 0,
   max (lote_in_packs st pid lote - lote_out_packs st pid lote) 0)

def prod_in_pallets (st : SalidaState) (pid : Int) : Int :=
  ((st.stock.filter (fun r =>
    r.idProducto == pid && r.tipoUnidad == "PALLET")).length : Int)

def prod_in_packs (st : SalidaState) (pid : Int) : Int :=
  ((st.stock.filter (fun r =>
    r.idProducto == pid && r.tipoUnidad == "PACKS")).map
      (fun r => r.packs)).sum

def prod_out_pallets (st : SalidaState) (pid : Int) : Int :=
  ((st.bajas.filter (fun b =>
    b.idProducto == pid &&
    (b.tipoUnidad == some "PALLET" || b.tipoUnidad == none))).map
      (fun b => b.cantidad)).sum

def prod_out_packs (st : SalidaState) (pid : Int) : Int :=
  ((st.bajas.filter (fun b =>
    b.idProducto == pid && b.tipoUnidad == some "PACKS")).map
      (fun b => b.cantidad)).sum

/-- `compute_net_totals_product` (salida.py): clamped at zero. -/
def compute_net_totals_product (st : SalidaState) (pid : Int) : Int × Int :=
  (max (prod_in_pallets st pid - prod_out_pallets st pid) 0,
   max (prod_in_packs st pid - prod_out_packs st pid) 0)

/-- `get_product_desc` (salida.py): `str(row[0]).strip() if row and row[0]
else "Sin descripción"`. -/
def get_product_desc (st : SalidaState) (pid : Int) : String :=
  match (st.productos.filter (fun p => p.id == pid)).head? with
  | some p => if p.descripcion == "" then "Sin descripción" else pyStrip p.descripcion
  | none => "Sin descripción"

/-- `registrar_baja` (salida.py): inserts into `productos_bajas` (no serial
column), returning the new id. -/
def registrar_baja (st : SalidaState) (pid : Int) (lote : String)
    (cantidad : Int) (motivo : String) (observaciones : Option String)
    (tipoUnidad : Option String) : SalidaState × Nat :=
  let obs : Option String :=
    match observaciones with
    | none => none
    | some s => if s == "" then none else some (pyStrip s)
  let tu : Option String :=
    match tipoUnidad with
    | none => none
    | some t => if t == "" then none else some (strUpperTrim t)
  ({ st with bajas := st.bajas ++ [⟨pid, lote, cantidad, motivo, obs, tu⟩] },
   st.bajas.length + 1)

/-- `upsert_sheet` (salida.py). -/
def upsert_sheet (st : SalidaState) (pid : Int) (pallets packs : Int) :
    SalidaState :=
  if st.sheet.any (fun r => r.idProducto == pid) then
    { st with sheet := st.sheet.map (fun r =>
        if r.idProducto == pid then ⟨pid, pallets, packs⟩ else r) }
  else { st with sheet := st.sheet ++ [⟨pid, pallets, packs⟩] }

/-- `refresh_sheet_everywhere` (salida.py).  The Google-Sheet POST is an
external effect: `webOk` says whether the webapp confirmed `{"ok": true}`;
the returned flag is whether a warning was produced (delivery failures are
swallowed). -/
def refresh_sheet_everywhere (st : SalidaState) (pid : Int) (webOk : Bool) :
    SalidaState × Int × Int × String × Bool :=
  let desc := get_product_desc st pid
  let n := compute_net_totals_product st pid
  let st2 := upsert_sheet st pid n.1 n.2
  (st2, n.1, n.2, desc, !webOk)

inductive BajaErr where
  | parseFailed (e : QRErr)
  | qrNotInStock
  | noPalletsNetos
  | noPacksNetos
deriving DecidableEq

structure BajaOk where
  bajaId : Nat
  pid : Int
  desc : String
  lote : String
  ns : Int
  tipoUnidad : String
  cantidad : Int
  netPallets : Int
  netPacks : Int
  warn : Bool
deriving DecidableEq

/-- `baja_por_qr` (salida.py). -/
def baja_por_qr (st : SalidaState) (raw : List Char) (motivo : String)
    (obs : Option String) (webOk : Bool) :
    SalidaState × Except BajaErr BajaOk :=
  match parseQRChars raw with
  | Except.error e => (st, Except.error (BajaErr.parseFailed e))
  | Except.ok qr =>
    let pid := qr.idProducto
    let lote := String.mk qr.lote
    let ns := qr.nroSerie
    match qr_exists_in_stock st pid lote ns with
    | none => (st, Except.error BajaErr.qrNotInStock)
    | some info =>
      let tipo := if info.1 == "PACKS" then "PACKS" else "PALLET"
      let cantidad : Int :=
        if info.1 == "PACKS" then (if 0 < info.2 then info.2 else 1) else 1
      let net := compute_net_available_lote st pid lote
      if tipo == "PALLET" && net.1 < 1 then
        (st, Except.error BajaErr.noPalletsNetos)
      else if tipo == "PACKS" && net.2 < cantidad then
        (st, Except.error BajaErr.noPacksNetos)
      else
        let rb := registrar_baja st pid lote cantidad motivo obs (some tipo)
        let rs := refresh_sheet_everywhere rb.1 pid webOk
        (rs.1, Except.ok ⟨rb.2, pid, rs.2.2.2.1, lote, ns, tipo, cantidad,
          rs.2.1, rs.2.2.1, rs.2.2.2.2⟩)

end Salida

/- ## generacionEimpresion.py -/

namespace Generacion

open ProyectoQR

/-- The description sanitisation in `generar_y_imprimir_qrs`:
`str(descripcion).replace("\n", " ").replace("|", "/").replace("=", "-")
.strip()`, truncated to 90 characters. -/
def desc_clean (descripcion : List Char) : List Char :=
  let s := ((descripcion.map (fun c => if c == '\n' then ' ' else c)).map
    (fun c => if c == '|' then '/' else c)).map
      (fun c => if c == '=' then '-' else c)
  (trimChars s).take 90

/-- The QR payload f-string of `generar_y_imprimir_qrs`:
`f"NS={nro:06d}|PRD={id}|DSC={desc}|LOT={lote}|FEC={fec}|VTO={vto}"`. -/
def armar_payload (nroSerie : Nat) (idProducto : Int)
    (descClean lote fec vto : List Char) : List Char :=
  ['N', 'S', '='] ++ pad6 nroSerie ++
  ['|', 'P', 'R', 'D', '='] ++ renderInt idProducto ++
  ['|', 'D', 'S', 'C', '='] ++ descClean ++
  ['|', 'L', 'O', 'T', '='] ++ lote ++
  ['|', 'F', 'E', 'C', '='] ++ fec ++
  ['|', 'V', 'T', 'O', '='] ++ vto

/-- `fecha_actual.strftime("%d%m%y")`, the lot code. -/
def lote_ddmmyy (d m y : Nat) : List Char :=
  pad2 d ++ pad2 m ++ pad2 (y % 100)

/-- `strftime("%Y-%m-%d")`, the ISO dates embedded in the payload. -/
def fecha_iso (y m d : Nat) : List Char :=
  pad4 y ++ ['-'] ++ pad2 m ++ ['-'] ++ pad2 d

end Generacion

/- ## Concrete states used as verification inputs -/

namespace Examples

open Escaner Salida

/-- One inbound range [1,10] with 7 trailing packs, no outbound movements. -/
def stRange : PGState :=
  ⟨[⟨1, "Widget"⟩], [⟨1, 1, "A", 1, 10, 7⟩], [], [], 1⟩

/-- Two inbound ranges [1,5] and [10,15] (no trailing packs) and one outbound
pallet movement at serial 3, inside the older range only. -/
def stTwoRanges : PGState :=
  ⟨[⟨1, "Widget"⟩],
   [⟨1, 1, "A", 1, 5, 0⟩, ⟨2, 1, "A", 10, 15, 0⟩],
   [⟨1, "A", 3, "pallet", 0⟩], [], 1⟩

/-- The spec scenario: one inbound range [100,105] and an outbound movement
at serial 103 inside it. -/
def stConsumed : PGState :=
  ⟨[⟨1, "Widget"⟩], [⟨1, 1, "A", 100, 105, 0⟩],
   [⟨1, "A", 103, "pallet", 0⟩], [], 1⟩

/-- No inbound ranges, one outbound pallet movement: outbound exceeds
inbound. -/
def stOverdrawn : PGState :=
  ⟨[], [], [⟨5, "A", 77, "pallet", 0⟩], [], 1⟩

/-- salida.py state: no stock rows, one PALLET baja of quantity 2: outbound
exceeds inbound for product 5, lot "A". -/
def sOverdrawn : SalidaState :=
  ⟨[], [⟨5, "A", 2, "Venta", none, some "PALLET"⟩], [], []⟩

/-- salida.py state: two PALLET stock rows (serials 10 and 11) for product 5,
lot "A"; no bajas yet. -/
def sTwoPallets : SalidaState :=
  ⟨[⟨5, "A", 10, "PALLET", 0⟩, ⟨5, "A", 11, "PALLET", 0⟩], [],
   [⟨5, "P5"⟩], []⟩

/-- The QR payload for product 5, lot "A", serial 10. -/
def rawSerial10 : List Char :=
  "NS=10|PRD=5|LOT=A".data

/-- A queued Sheets payload. -/
def payloadC4 : SheetsPayload :=
  ⟨1, "Widget", "A", 9, 7⟩

/-- An outbox holding a single message with id 1. -/
def outboxC4 : List (Nat × SheetsPayload) :=
  [(1, payloadC4)]

/-- A wire on which every delivery attempt raises (network down). -/
def wireRaise : SheetsPayload → WireResult :=
  fun _ => WireResult.raised "boom"

/-- Two outbound rows sharing (id_producto, lote, nro_serie). -/
def salidaRow10 : SalidaRow :=
  ⟨5, "A", 10, "pallet", 0⟩

def salidaRow10' : SalidaRow :=
  ⟨5, "A", 10, "packs", 3⟩

end Examples

/- ## Spec-side restatements (for refinement claims) -/

namespace Escaner

/-- The net-pallet formula in the words of the spec (§4.4): sum over the
scoped ranges of `(serial_end - serial_start + 1)` minus 1 when
`trailing_packs > 0`, minus one per pallet-type outbound movement. -/
def specNetPallets (ranges : List RangeRow) (salidas : List SalidaRow) : Int :=
  (ranges.map (fun r =>
      r.serieFin - r.serieInicio + 1 - (if 0 < r.packsFin then 1 else 0))).sum
    - ((salidas.filter (fun s => s.unitType == "pallet")).length : Int)

/-- The net-packs formula in the words of the spec (§4.4): sum of
`trailing_packs` minus the sum of `packs_qty` over packs-type outbound
movements. -/
def specNetPacks (ranges : List RangeRow) (salidas : List SalidaRow) : Int :=
  (ranges.map (fun r => r.packsFin)).sum
    - ((salidas.filter (fun s => s.unitType == "packs")).map
        (fun s => s.packsQty)).sum

end Escaner

/- ## Generic lemmas about the helpers -/

section SortLemmas

variable {α : Type} (le : α → α → Bool)

theorem insertSorted_perm (a : α) (l : List α) :
    List.Perm (insertSorted le a l) (a :: l) := by
  induction l with
  | nil => exact List.Perm.refl _
  | cons b bs ih =>
    simp only [insertSorted]
    by_cases h : le a b = true
    · simp [h]
    · simp only [h, if_false]
      exact (List.Perm.cons b ih).trans (List.Perm.swap a b bs)

theorem sortL_perm (l : List α) : List.Perm (sortL le l) l := by
  induction l with
  | nil => exact List.Perm.refl _
  | cons a as ih =>
    exact (insertSorted_perm le a (sortL le as)).trans (List.Perm.cons a ih)

theorem insertSorted_pairwise
    (htot : ∀ x y, le x y = true ∨ le y x = true)
    (htr : ∀ x y z, le x y = true → le y z = true → le x z = true)
    (a : α) :
    ∀ (l : List α), l.Pairwise (fun x y => le x y = true) →
      (insertSorted le a l).Pairwise (fun x y => le x y = true) := by
  intro l
  induction l with
  | nil => intro _; simp [insertSorted]
  | cons b bs ih =>
    intro hl
    rw [List.pairwise_cons] at hl
    simp only [insertSorted]
    by_cases h : le a b = true
    · rw [if_pos h]
      rw [List.pairwise_cons]
      refine ⟨?_, List.pairwise_cons.mpr hl⟩
      intro x hx
      rcases List.mem_cons.mp hx with rfl | hx
      · exact h
      · exact htr a b x h (hl.1 x hx)
    · rw [if_neg h]
      rw [List.pairwise_cons]
      refine ⟨?_, ih hl.2⟩
      intro x hx
      have hba : le b a = true := by
        rcases htot a b with h' | h'
        · exact absurd h' h
        · exact h'
      have : x = a ∨ x ∈ bs := by
        have := (insertSorted_perm le a bs).mem_iff.mp hx
        simpa using this
      rcases this with rfl | hx'
      · exact hba
      · exact hl.1 x hx'

theorem sortL_pairwise
    (htot : ∀ x y, le x y = true ∨ le y x = true)
    (htr : ∀ x y z, le x y = true → le y z = true → le x z = true)
    (l : List α) :
    (sortL le l).Pairwise (fun x y => le x y = true) := by
  induction l with
  | nil => simp [sortL]
  | cons a as ih => exact insertSorted_pairwise le htot htr a _ ih

end SortLemmas

section CharLemmas

theorem dropWhile_eq_self_of_none {p : Char → Bool} :
    ∀ {l : List Char}, (∀ c ∈ l, p c = false) → l.dropWhile p = l
  | [], _ => rfl
  | c :: cs, h => by
    have hc : p c = false := h c (List.mem_cons_self c cs)
    simp [List.dropWhile_cons, hc]

theorem trimChars_eq_self {l : List Char} (h : ∀ c ∈ l, isPyWS c = false) :
    trimChars l = l := by
  unfold trimChars
  rw [dropWhile_eq_self_of_none h]
  rw [dropWhile_eq_self_of_none (fun c hc => h c (List.mem_reverse.mp hc))]
  exact List.reverse_reverse l

theorem ne_of_isDigit {c x : Char} (h : c.isDigit = true)
    (hx : x.isDigit = false) : c ≠ x := by
  intro e
  rw [e, hx] at h
  cases h

theorem isPyWS_eq_false_of_isDigit {c : Char} (h : c.isDigit = true) :
    isPyWS c = false := by
  unfold isPyWS
  have h1 : c ≠ ' ' := ne_of_isDigit h (by decide)
  have h2 : c ≠ '\t' := ne_of_isDigit h (by decide)
  have h3 : c ≠ '\n' := ne_of_isDigit h (by decide)
  have h4 : c ≠ '\r' := ne_of_isDigit h (by decide)
  have h5 : c ≠ Char.ofNat 11 := ne_of_isDigit h (by decide)
  have h6 : c ≠ Char.ofNat 12 := ne_of_isDigit h (by decide)
  simp [h1, h2, h3, h4, h5, h6]

theorem isDigit_digitChar (d : Nat) : (digitChar d).isDigit = true := by
  unfold digitChar
  split <;> decide

theorem digitVal_digitChar {d : Nat} (h : d < 10) :
    digitVal (digitChar d) = d := by
  interval_cases d <;> decide

theorem digitsValue_append_one (l : List Char) (c : Char) :
    digitsValue (l ++ [c]) = 10 * digitsValue l + digitVal c := by
  simp [digitsValue, List.foldl_append]

theorem digitsValue_replicate_zero (k : Nat) (l : List Char) :
    digitsValue (List.replicate k '0' ++ l) = digitsValue l := by
  induction k with
  | zero => simp
  | succ k ih =>
    have : List.replicate (k + 1) '0' ++ l = '0' :: (List.replicate k '0' ++ l) := by
      simp [List.replicate_succ]
    rw [this]
    simpa [digitsValue] using ih

theorem natToCharsAux_congr :
    ∀ (f1 f2 n : Nat), n < f1 → n < f2 →
      natToCharsAux f1 n = natToCharsAux f2 n := by
  intro f1
  induction f1 with
  | zero => intro f2 n h1 _; omega
  | succ f ih =>
    intro f2 n h1 h2
    cases f2 with
    | zero => omega
    | succ g =>
      simp only [natToCharsAux]
      by_cases hn : n < 10
      · simp [hn]
      · simp only [hn, if_false]
        have hd : n / 10 < n := Nat.div_lt_self (by omega) (by omega)
        rw [ih g (n / 10) (by omega) (by omega)]

theorem natToChars_eq (n : Nat) :
    natToChars n =
      if n < 10 then [digitChar n]
      else natToChars (n / 10) ++ [digitChar (n % 10)] := by
  show natToCharsAux (n + 1) n = _
  simp only [natToCharsAux]
  by_cases hn : n < 10
  · simp [hn]
  · simp only [hn, if_false]
    have hd : n / 10 < n := Nat.div_lt_self (by omega) (by omega)
    rw [natToCharsAux_congr n (n / 10 + 1) (n / 10) (by omega) (by omega)]
    rfl

theorem digitsValue_natToChars (n : Nat) :
    digitsValue (natToChars n) = n := by
  induction n using Nat.strong_induction_on with
  | _ n ih =>
    rw [natToChars_eq]
    by_cases h : n < 10
    · simp only [h, if_true]
      simpa [digitsValue] using digitVal_digitChar h
    · simp only [h, if_false]
      rw [digitsValue_append_one,
        ih (n / 10) (Nat.div_lt_self (by omega) (by omega)),
        digitVal_digitChar (Nat.mod_lt n (by omega))]
      omega

theorem natToChars_all_digits (n : Nat) :
    ∀ c ∈ natToChars n, c.isDigit = true := by
  induction n using Nat.strong_induction_on with
  | _ n ih =>
    rw [natToChars_eq]
    by_cases h : n < 10
    · simp only [h, if_true]
      intro c hc
      rw [List.mem_singleton.mp hc]
      exact isDigit_digitChar n
    · simp only [h, if_false]
      intro c hc
      rcases List.mem_append.mp hc with hc' | hc'
      · exact ih (n / 10) (Nat.div_lt_self (by omega) (by omega)) c hc'
      · rw [List.mem_singleton.mp hc']
        exact isDigit_digitChar (n % 10)

theorem natToChars_ne_nil (n : Nat) : natToChars n ≠ [] := by
  rw [natToChars_eq]
  by_cases h : n < 10 <;> simp [h]

theorem padZeros_all_digits (k : Nat) {l : List Char}
    (h : ∀ c ∈ l, c.isDigit = true) :
    ∀ c ∈ padZeros k l, c.isDigit = true := by
  intro c hc
  rcases List.mem_append.mp hc with hc' | hc'
  · rw [List.eq_of_mem_replicate hc']
    decide
  · exact h c hc'

theorem padZeros_ne_nil (k : Nat) {l : List Char} (h : l ≠ []) :
    padZeros k l ≠ [] := by
  unfold padZeros
  simp [h]

theorem digitsValue_padZeros (k n : Nat) :
    digitsValue (padZeros k (natToChars n)) = n := by
  unfold padZeros
  rw [digitsValue_replicate_zero, digitsValue_natToChars]

theorem trim_of_digits {l : List Char} (h : ∀ c ∈ l, c.isDigit = true) :
    trimChars l = l :=
  trimChars_eq_self (fun c hc => isPyWS_eq_false_of_isDigit (h c hc))

theorem digitsValQ_of_digits {l : List Char} (hne : l ≠ [])
    (hd : ∀ c ∈ l, c.isDigit = true) :
    digitsValQ l = some (digitsValue l) := by
  unfold digitsValQ
  have h1 : l.isEmpty = false := by
    cases l
    · exact absurd rfl hne
    · rfl
  have h2 : l.all Char.isDigit = true := List.all_eq_true.mpr hd
  simp [h1, h2]

theorem pyIntChars_digits {l : List Char} (hne : l ≠ [])
    (hd : ∀ c ∈ l, c.isDigit = true) :
    pyIntChars l = some ((digitsValue l : Nat) : Int) := by
  unfold pyIntChars
  rw [trim_of_digits hd]
  cases l with
  | nil => exact absurd rfl hne
  | cons c cs =>
    have hdc : c.isDigit = true := hd c (List.mem_cons_self c cs)
    have h1 : c ≠ '+' := ne_of_isDigit hdc (by decide)
    have h2 : c ≠ '-' := ne_of_isDigit hdc (by decide)
    rw [pyIntCore, if_neg h1, if_neg h2, digitsValQ_of_digits hne hd]
    rfl

theorem pyIntChars_renderInt (i : Int) : pyIntChars (renderInt i) = some i := by
  unfold renderInt
  by_cases h : i < 0
  · simp only [h, if_true]
    have hdig := natToChars_all_digits i.natAbs
    have hws : ∀ c ∈ '-' :: natToChars i.natAbs, isPyWS c = false := by
      intro c hc
      rcases List.mem_cons.mp hc with rfl | hc'
      · decide
      · exact isPyWS_eq_false_of_isDigit (hdig c hc')
    unfold pyIntChars
    rw [trimChars_eq_self hws]
    have h1 : ('-' : Char) ≠ '+' := by decide
    rw [pyIntCore, if_neg h1, if_pos rfl,
      digitsValQ_of_digits (natToChars_ne_nil _) hdig,
      digitsValue_natToChars]
    show some (-(i.natAbs : Int)) = some i
    congr 1
    omega
  · simp only [h, if_false]
    rw [pyIntChars_digits (natToChars_ne_nil _) (natToChars_all_digits _)]
    congr 1
    rw [digitsValue_natToChars]
    omega

end CharLemmas

section SumLemmas

theorem sum_map_ite_one {α : Type} (p : α → Bool) (l : List α) :
    (l.map (fun x => if p x then (1 : Int) else 0)).sum =
      ((l.filter p).length : Int) := by
  induction l with
  | nil => simp
  | cons a as ih =>
    by_cases h : p a = true
    · simp [h, ih]
      omega
    · simp only [Bool.not_eq_true] at h
      simp [h, ih]

theorem sum_map_ite_val {α : Type} (p : α → Bool) (f : α → Int) (l : List α) :
    (l.map (fun x => if p x then f x else 0)).sum =
      ((l.filter p).map f).sum := by
  induction l with
  | nil => simp
  | cons a as ih =>
    by_cases h : p a = true
    · simp [h, ih]
    · simp only [Bool.not_eq_true] at h
      simp [h, ih]

theorem sum_nonneg_of_mem {l : List Int} (h : ∀ x ∈ l, 0 ≤ x) : 0 ≤ l.sum := by
  induction l with
  | nil => simp
  | cons a as ih =>
    simp only [List.sum_cons]
    have ha := h a (List.mem_cons_self a as)
    have has := ih (fun x hx => h x (List.mem_cons_of_mem a hx))
    omega

end SumLemmas

/- ## Lemmas about the Adjustment Engine (escaner.py) -/

namespace Escaner

/-- Rows with the ids of a list with distinct ids are determined by their
id. -/
theorem eq_of_mem_of_id_eq :
    ∀ {l : List RangeRow}, (l.map (fun x => x.id)).Nodup →
      ∀ {r x : RangeRow}, r ∈ l → x ∈ l → x.id = r.id → x = r := by
  intro l
  induction l with
  | nil => intro _ r x hr; cases hr
  | cons a as ih =>
    intro hnd r x hr hx hid
    rw [List.map_cons, List.nodup_cons] at hnd
    rcases List.mem_cons.mp hr with rfl | hr' <;>
      rcases List.mem_cons.mp hx with rfl | hx'
    · rfl
    · exact absurd (hid ▸ List.mem_map_of_mem (fun y => y.id) hx') hnd.1
    · exact absurd (hid ▸ List.mem_map_of_mem (fun y => y.id) hr') hnd.1
    · exact ih hnd.2 hr' hx' hid

theorem sum_map_upd (f : RangeRow → Int) (g : RangeRow → RangeRow) :
    ∀ (l : List RangeRow) (r : RangeRow), r ∈ l →
      (l.map (fun x => x.id)).Nodup →
      ((l.map (fun x => if x.id == r.id then g x else x)).map f).sum
        = (l.map f).sum - f r + f (g r) := by
  intro l
  induction l with
  | nil => intro r hr; cases hr
  | cons a as ih =>
    intro r hr hnd
    rw [List.map_cons, List.nodup_cons] at hnd
    rcases List.mem_cons.mp hr with rfl | hr'
    · have hhead : (if (r.id == r.id) = true then g r else r) = g r := by simp
      have htail : as.map (fun x => if x.id == r.id then g x else x)
          = as.map id := by
        apply List.map_congr_left
        intro x hx
        have hx' : x.id ≠ r.id := by
          intro e
          exact hnd.1 (e ▸ List.mem_map_of_mem (fun y => y.id) hx)
        simp [hx']
      rw [List.map_cons, hhead, htail, List.map_id, List.map_cons,
        List.sum_cons, List.map_cons, List.sum_cons]
      omega
    · have hne : a.id ≠ r.id := by
        intro e
        exact hnd.1 (by rw [e]; exact List.mem_map_of_mem (fun y => y.id) hr')
      have hhead : (if (a.id == r.id) = true then g a else a) = a := by
        simp [hne]
      rw [List.map_cons, hhead, List.map_cons, List.sum_cons, List.map_cons,
        List.sum_cons, ih r hr' hnd.2]
      omega

theorem sum_map_del (f : RangeRow → Int) :
    ∀ (l : List RangeRow) (r : RangeRow), r ∈ l →
      (l.map (fun x => x.id)).Nodup →
      ((l.filter (fun x => x.id != r.id)).map f).sum = (l.map f).sum - f r := by
  intro l
  induction l with
  | nil => intro r hr; cases hr
  | cons a as ih =>
    intro r hr hnd
    rw [List.map_cons, List.nodup_cons] at hnd
    rcases List.mem_cons.mp hr with rfl | hr'
    · have hhead : (r :: as).filter (fun x => x.id != r.id)
          = as.filter (fun x => x.id != r.id) := by
        rw [List.filter_cons]
        simp
      have htail : as.filter (fun x => x.id != r.id) = as := by
        apply List.filter_eq_self.mpr
        intro x hx
        have hx' : x.id ≠ r.id := by
          intro e
          exact hnd.1 (e ▸ List.mem_map_of_mem (fun y => y.id) hx)
        simpa using hx'
      rw [hhead, htail, List.map_cons, List.sum_cons]
      omega
    · have hne : a.id ≠ r.id := by
        intro e
        exact hnd.1 (by rw [e]; exact List.mem_map_of_mem (fun y => y.id) hr')
      have hhead : (a :: as).filter (fun x => x.id != r.id)
          = a :: as.filter (fun x => x.id != r.id) := by
        rw [List.filter_cons]
        simp [hne]
      rw [hhead, List.map_cons, List.sum_cons, List.map_cons, List.sum_cons,
        ih r hr' hnd.2]
      omega

theorem filter_map_upd (p : RangeRow → Bool) (g : RangeRow → RangeRow)
    (rid : Nat) (hg : ∀ x, p (g x) = p x) (l : List RangeRow) :
    (l.map (fun x => if x.id == rid then g x else x)).filter p
      = (l.filter p).map (fun x => if x.id == rid then g x else x) := by
  induction l with
  | nil => rfl
  | cons a as ih =>
    have hpa : p (if (a.id == rid) = true then g a else a) = p a := by
      by_cases h : a.id = rid <;> simp [h, hg]
    by_cases h : p a = true
    · rw [List.map_cons, List.filter_cons, List.filter_cons]
      simp only [hpa, h, if_true]
      rw [List.map_cons, ih]
    · have h' : p a = false := by simpa using h
      rw [List.map_cons, List.filter_cons, List.filter_cons]
      simp only [hpa, h']
      exact ih

theorem filter_filter_comm (p q : RangeRow → Bool) (l : List RangeRow) :
    (l.filter q).filter p = (l.filter p).filter q := by
  simp [List.filter_filter, Bool.and_comm]

theorem nodup_ids_filter (p : RangeRow → Bool) {l : List RangeRow}
    (h : (l.map (fun x => x.id)).Nodup) :
    ((l.filter p).map (fun x => x.id)).Nodup := by
  have hs : (l.filter p).Sublist l := List.filter_sublist l
  exact h.sublist (hs.map _)

theorem map_upd_id (l : List RangeRow) (rid : Nat) (g : RangeRow → RangeRow)
    (hg : ∀ x, (g x).id = x.id) :
    (l.map (fun x => if x.id == rid then g x else x)).map (fun x => x.id)
      = l.map (fun x => x.id) := by
  rw [List.map_map]
  apply List.map_congr_left
  intro x _
  by_cases h : x.id = rid <;> simp [h, hg]

theorem mem_map_upd_of_ne {l : List RangeRow} {x : RangeRow} (rid : Nat)
    (g : RangeRow → RangeRow) (hx : x ∈ l) (hne : x.id ≠ rid) :
    x ∈ l.map (fun r => if r.id == rid then g r else r) := by
  have he : (fun r => if r.id == rid then g r else r) x = x := by
    simp [beq_eq_false_iff_ne.mpr hne]
  rw [← he]
  exact List.mem_map_of_mem _ hx

/-- The scoped-sum effect of an `UPDATE` of row `r.id`. -/
theorem sumScope_upd (pid : Int) (lote : String) (f : RangeRow → Int)
    (g : RangeRow → RangeRow)
    (hgs : ∀ x, scopeB pid lote (g x) = scopeB pid lote x)
    {l : List RangeRow} {r : RangeRow}
    (hmem : r ∈ l) (hnd : (l.map (fun x => x.id)).Nodup)
    (hscope : scopeB pid lote r = true) :
    (((l.map (fun x => if x.id == r.id then g x else x)).filter
        (scopeB pid lote)).map f).sum
      = ((l.filter (scopeB pid lote)).map f).sum - f r + f (g r) := by
  rw [filter_map_upd _ _ _ hgs]
  exact sum_map_upd f g (l.filter _) r (List.mem_filter.mpr ⟨hmem, hscope⟩)
    (nodup_ids_filter _ hnd)

/-- The scoped-sum effect of a `DELETE` of row `r.id`. -/
theorem sumScope_del (pid : Int) (lote : String) (f : RangeRow → Int)
    {l : List RangeRow} {r : RangeRow}
    (hmem : r ∈ l) (hnd : (l.map (fun x => x.id)).Nodup)
    (hscope : scopeB pid lote r = true) :
    (((l.filter (fun x => x.id != r.id)).filter (scopeB pid lote)).map f).sum
      = ((l.filter (scopeB pid lote)).map f).sum - f r := by
  rw [filter_filter_comm]
  exact sum_map_del f (l.filter _) r (List.mem_filter.mpr ⟨hmem, hscope⟩)
    (nodup_ids_filter _ hnd)

theorem adjust_salidas (st : PGState) (rid : Nat) (nf np : Option Int) :
    (adjust_or_delete_range st rid nf np).salidas = st.salidas := by
  unfold adjust_or_delete_range
  cases nf <;> cases np <;> rfl

theorem adjust_productos (st : PGState) (rid : Nat) (nf np : Option Int) :
    (adjust_or_delete_range st rid nf np).productos = st.productos := by
  unfold adjust_or_delete_range
  cases nf <;> cases np <;> rfl

theorem adjust_outbox (st : PGState) (rid : Nat) (nf np : Option Int) :
    (adjust_or_delete_range st rid nf np).outbox = st.outbox := by
  unfold adjust_or_delete_range
  cases nf <;> cases np <;> rfl

theorem adjust_seqOutbox (st : PGState) (rid : Nat) (nf np : Option Int) :
    (adjust_or_delete_range st rid nf np).seqOutbox = st.seqOutbox := by
  unfold adjust_or_delete_range
  cases nf <;> cases np <;> rfl

theorem countSalidas_congr {st st' : PGState} (h : st'.salidas = st.salidas)
    (pid : Int) (lote : String) (a b : Int) :
    countSalidasBetween st' pid lote a b = countSalidasBetween st pid lote a b := by
  simp [countSalidasBetween, h]

theorem maxSum_nonneg (rs : List RangeRow) :
    0 ≤ (rs.map (fun r => max (pallContrib r) 0)).sum := by
  apply sum_nonneg_of_mem
  intro x hx
  rcases List.mem_map.mp hx with ⟨a, _, rfl⟩
  exact le_max_right _ _

theorem packsSum_nonneg {rs : List RangeRow}
    (h : ∀ r ∈ rs, 0 ≤ r.packsFin) :
    0 ≤ (rs.map (fun r => r.packsFin)).sum := by
  apply sum_nonneg_of_mem
  intro x hx
  rcases List.mem_map.mp hx with ⟨a, ha, rfl⟩
  exact h a ha

/-- A row whose id differs from the mutated one survives any
`adjust_or_delete_range` call unchanged. -/
theorem mem_adjust_of_ne {st : PGState} {x : RangeRow} (rid : Nat)
    (nf np : Option Int) (hx : x ∈ st.stockPP) (hne : x.id ≠ rid) :
    x ∈ (adjust_or_delete_range st rid nf np).stockPP := by
  unfold adjust_or_delete_range
  cases nf with
  | none =>
    cases np with
    | none =>
      refine List.mem_filter.mpr ⟨hx, ?_⟩
      simp only [bne_iff_ne, ne_eq]
      exact hne
    | some v => exact mem_map_upd_of_ne rid _ hx hne
  | some f =>
    cases np with
    | none => exact mem_map_upd_of_ne rid _ hx hne
    | some v => exact mem_map_upd_of_ne rid _ hx hne

/-- The `eliminar_batch_ultimos` walk aborts on the first offending range,
wherever it sits in the snapshot order: if the snapshot is `pre ++ r ::
post`, no range of `pre` has an outbound movement in its span, `r` has one,
and the requested amount exceeds what `pre` can absorb (so the walk reaches
`r` with remaining > 0), then the walk stops with the
`check_if_range_has_salidas` error, the movement ledger is untouched, and
`r` and every range of `post` are still present unchanged. -/
theorem elimWalk_consumed (pid : Int) (lote : String) (ut : String)
    (r : RangeRow) (post : List RangeRow) :
    ∀ (pre : List RangeRow) (remaining : Int) (st : PGState) (acc : List Nat),
      0 < countSalidasBetween st pid lote r.serieInicio r.serieFin →
      (∀ q ∈ pre,
        countSalidasBetween st pid lote q.serieInicio q.serieFin = 0) →
      (((pre ++ r :: post).map (fun x => x.id)).Nodup) →
      (∀ q ∈ r :: post, q ∈ st.stockPP) →
      ((pre.map (fun q => if ut == "packs" then max q.packsFin 0
          else max (pallContrib q) 0)).sum) < remaining →
      ∃ st',
        elimWalk pid lote ut (pre ++ r :: post) remaining st acc
          = (st', Except.error (ElimErr.rangeHasSalidas
              (countSalidasBetween st pid lote r.serieInicio r.serieFin))) ∧
        st'.salidas = st.salidas ∧ st'.productos = st.productos ∧
        st'.outbox = st.outbox ∧ st'.seqOutbox = st.seqOutbox ∧
        r ∈ st'.stockPP ∧ (∀ q ∈ post, q ∈ st'.stockPP) := by
  intro pre
  induction pre with
  | nil =>
    intro remaining st acc hro _ _ hmem htouch
    have hrem : ¬ remaining ≤ 0 := by
      simp only [List.map_nil, List.sum_nil] at htouch
      omega
    refine ⟨st, ?_, rfl, rfl, rfl, rfl,
      hmem r (List.mem_cons_self r post),
      fun q hq => hmem q (List.mem_cons_of_mem r hq)⟩
    simp only [List.nil_append, elimWalk, if_neg hrem, if_pos hro]
  | cons p pre' ih =>
    intro remaining st acc hro hpre hnd hmem htouch
    rw [List.cons_append, List.map_cons, List.nodup_cons] at hnd
    have hp0 : countSalidasBetween st pid lote p.serieInicio p.serieFin = 0 :=
      hpre p (List.mem_cons_self p pre')
    have hsum : (if ut == "packs" then max p.packsFin 0
          else max (pallContrib p) 0)
        + (pre'.map (fun q => if ut == "packs" then max q.packsFin 0
            else max (pallContrib q) 0)).sum < remaining := by
      simpa using htouch
    have hcap0 : (0 : Int) ≤ (if ut == "packs" then max p.packsFin 0
        else max (pallContrib p) 0) := by
      split
      · exact le_max_right _ _
      · exact le_max_right _ _
    have hsum' : (0 : Int) ≤ (pre'.map (fun q =>
        if ut == "packs" then max q.packsFin 0
        else max (pallContrib q) 0)).sum := by
      apply sum_nonneg_of_mem
      intro x hx
      rcases List.mem_map.mp hx with ⟨a, _, rfl⟩
      split
      · exact le_max_right _ _
      · exact le_max_right _ _
    have hrem : ¬ remaining ≤ 0 := by omega
    have hner : r.id ≠ p.id := by
      intro e
      exact hnd.1 (by
        rw [← e]
        exact List.mem_map_of_mem (fun y => y.id)
          (List.mem_append.mpr (Or.inr (List.mem_cons_self r post))))
    have hnepost : ∀ q ∈ post, q.id ≠ p.id := by
      intro q hq e
      exact hnd.1 (by
        rw [← e]
        exact List.mem_map_of_mem (fun y => y.id)
          (List.mem_append.mpr (Or.inr (List.mem_cons_of_mem r hq))))
    by_cases hutp : ((ut == "packs") = true)
    · by_cases hz : ((p.packsFin == 0) = true)
      · -- zero-packs range: skipped, nothing mutated
        have hstep : elimWalk pid lote ut ((p :: pre') ++ r :: post)
              remaining st acc
            = elimWalk pid lote ut (pre' ++ r :: post) remaining st acc := by
          rw [List.cons_append]
          simp only [elimWalk, if_neg hrem, hp0, if_neg (lt_irrefl 0),
            if_pos hutp, hz, if_true]
        have hz' : p.packsFin = 0 := beq_iff_eq.mp hz
        have hcz : (if ut == "packs" then max p.packsFin 0
            else max (pallContrib p) 0) = 0 := by
          rw [if_pos hutp, hz']
          simp
        rw [hstep]
        rw [hcz] at hsum
        exact ih remaining st acc hro
          (fun q hq => hpre q (List.mem_cons_of_mem p hq)) hnd.2 hmem
          (by omega)
      · -- packs mutation on this range, then the walk continues
        have hzf : (p.packsFin == 0) = false := by
          simpa using hz
        have hstep : elimWalk pid lote ut ((p :: pre') ++ r :: post)
              remaining st acc
            = elimWalk pid lote ut (pre' ++ r :: post)
                (remaining - min remaining p.packsFin)
                (adjust_or_delete_range st p.id none
                  (some (p.packsFin - min remaining p.packsFin)))
                (p.id :: acc) := by
          rw [List.cons_append]
          simp only [elimWalk, if_neg hrem, hp0, if_neg (lt_irrefl 0),
            if_pos hutp, hzf, Bool.false_eq_true, if_false]
        set st2 := adjust_or_delete_range st p.id none
            (some (p.packsFin - min remaining p.packsFin)) with hst2
        have hsal2 : st2.salidas = st.salidas := adjust_salidas st p.id _ _
        have hprod2 : st2.productos = st.productos := adjust_productos st p.id _ _
        have hout2 : st2.outbox = st.outbox := adjust_outbox st p.id _ _
        have hseq2 : st2.seqOutbox = st.seqOutbox := adjust_seqOutbox st p.id _ _
        have hmem2 : ∀ q ∈ r :: post, q ∈ st2.stockPP := by
          intro q hq
          rcases List.mem_cons.mp hq with rfl | hq'
          · exact mem_adjust_of_ne p.id _ _ (hmem q hq) hner
          · exact mem_adjust_of_ne p.id _ _ (hmem q hq) (hnepost q hq')
        have hro2 : 0 < countSalidasBetween st2 pid lote
            r.serieInicio r.serieFin := by
          rw [countSalidas_congr hsal2]
          exact hro
        have hpre2 : ∀ q ∈ pre',
            countSalidasBetween st2 pid lote q.serieInicio q.serieFin = 0 := by
          intro q hq
          rw [countSalidas_congr hsal2]
          exact hpre q (List.mem_cons_of_mem p hq)
        have hm1 : min remaining p.packsFin ≤ p.packsFin := min_le_right _ _
        have hm2 : p.packsFin ≤ max p.packsFin 0 := le_max_left _ _
        have hcz : (if ut == "packs" then max p.packsFin 0
            else max (pallContrib p) 0) = max p.packsFin 0 := if_pos hutp
        rw [hcz] at hsum
        obtain ⟨st', heq, hsal', hprod', hout', hseq', hrm', hpm'⟩ :=
          ih (remaining - min remaining p.packsFin) st2 (p.id :: acc)
            hro2 hpre2 hnd.2 hmem2 (by omega)
        rw [countSalidas_congr hsal2] at heq
        refine ⟨st', ?_, ?_, ?_, ?_, ?_, hrm', hpm'⟩
        · rw [hstep]
          exact heq
        · rw [hsal', hsal2]
        · rw [hprod', hprod2]
        · rw [hout', hout2]
        · rw [hseq', hseq2]
    · by_cases hpir : pallContrib p ≤ 0
      · -- empty pallet range: skipped, nothing mutated
        have hstep : elimWalk pid lote ut ((p :: pre') ++ r :: post)
              remaining st acc
            = elimWalk pid lote ut (pre' ++ r :: post) remaining st acc := by
          rw [List.cons_append]
          simp only [elimWalk, if_neg hrem, hp0, if_neg (lt_irrefl 0),
            if_neg hutp, if_pos hpir]
        have hcz : (if ut == "packs" then max p.packsFin 0
            else max (pallContrib p) 0) = 0 := by
          rw [if_neg hutp]
          exact max_eq_right hpir
        rw [hstep]
        rw [hcz] at hsum
        exact ih remaining st acc hro
          (fun q hq => hpre q (List.mem_cons_of_mem p hq)) hnd.2 hmem
          (by omega)
      · -- pallet mutation (delete or shrink), then the walk continues
        have hstep : elimWalk pid lote ut ((p :: pre') ++ r :: post)
              remaining st acc
            = elimWalk pid lote ut (pre' ++ r :: post)
                (remaining - min remaining (pallContrib p))
                (if (min remaining (pallContrib p) == pallContrib p) = true
                 then adjust_or_delete_range st p.id none none
                 else adjust_or_delete_range st p.id
                   (some (p.serieFin - min remaining (pallContrib p))) none)
                (p.id :: acc) := by
          rw [List.cons_append]
          simp only [elimWalk, if_neg hrem, hp0, if_neg (lt_irrefl 0),
            if_neg hutp, if_neg hpir]
        obtain ⟨nf, np, hite⟩ : ∃ nf np,
            (if (min remaining (pallContrib p) == pallContrib p) = true
             then adjust_or_delete_range st p.id none none
             else adjust_or_delete_range st p.id
               (some (p.serieFin - min remaining (pallContrib p))) none)
            = adjust_or_delete_range st p.id nf np := by
          by_cases hfull : ((min remaining (pallContrib p) == pallContrib p)
              = true)
          · exact ⟨none, none, by rw [if_pos hfull]⟩
          · exact ⟨some (p.serieFin - min remaining (pallContrib p)), none,
              by rw [if_neg hfull]⟩
        rw [hite] at hstep
        set st2 := adjust_or_delete_range st p.id nf np with hst2
        have hsal2 : st2.salidas = st.salidas := adjust_salidas st p.id _ _
        have hprod2 : st2.productos = st.productos := adjust_productos st p.id _ _
        have hout2 : st2.outbox = st.outbox := adjust_outbox st p.id _ _
        have hseq2 : st2.seqOutbox = st.seqOutbox := adjust_seqOutbox st p.id _ _
        have hmem2 : ∀ q ∈ r :: post, q ∈ st2.stockPP := by
          intro q hq
          rcases List.mem_cons.mp hq with rfl | hq'
          · exact mem_adjust_of_ne p.id _ _ (hmem q hq) hner
          · exact mem_adjust_of_ne p.id _ _ (hmem q hq) (hnepost q hq')
        have hro2 : 0 < countSalidasBetween st2 pid lote
            r.serieInicio r.serieFin := by
          rw [countSalidas_congr hsal2]
          exact hro
        have hpre2 : ∀ q ∈ pre',
            countSalidasBetween st2 pid lote q.serieInicio q.serieFin = 0 := by
          intro q hq
          rw [countSalidas_congr hsal2]
          exact hpre q (List.mem_cons_of_mem p hq)
        have hm1 : min remaining (pallContrib p) ≤ pallContrib p :=
          min_le_right _ _
        have hm2 : pallContrib p ≤ max (pallContrib p) 0 := le_max_left _ _
        have hcz : (if ut == "packs" then max p.packsFin 0
            else max (pallContrib p) 0) = max (pallContrib p) 0 :=
          if_neg hutp
        rw [hcz] at hsum
        obtain ⟨st', heq, hsal', hprod', hout', hseq', hrm', hpm'⟩ :=
          ih (remaining - min remaining (pallContrib p)) st2 (p.id :: acc)
            hro2 hpre2 hnd.2 hmem2 (by omega)
        rw [countSalidas_congr hsal2] at heq
        refine ⟨st', ?_, ?_, ?_, ?_, ?_, hrm', hpm'⟩
        · rw [hstep]
          exact heq
        · rw [hsal', hsal2]
        · rw [hprod', hprod2]
        · rw [hout', hout2]
        · rw [hseq', hseq2]

/-- Specification of the `eliminar_batch_ultimos` walk for `unit_type =
'pallet'`: with enough pallets in the snapshot and no outbound movements in
any snapshot range, the walk finishes with `remaining = 0` and removes
exactly the requested pallet count from the scoped inbound sum, touching
nothing else. -/
theorem elimWalk_pallet_ok (pid : Int) (lote : String) :
    ∀ (rs : List RangeRow) (remaining : Int) (st : PGState) (acc : List Nat),
      0 ≤ remaining →
      remaining ≤ ((rs.map (fun r => max (pallContrib r) 0)).sum) →
      (∀ r ∈ rs, countSalidasBetween st pid lote r.serieInicio r.serieFin = 0) →
      ((st.stockPP.map (fun x => x.id)).Nodup) →
      ((rs.map (fun x => x.id)).Nodup) →
      (∀ r ∈ rs, r ∈ st.stockPP) →
      (∀ r ∈ rs, scopeB pid lote r = true) →
      ∃ st' acc',
        elimWalk pid lote "pallet" rs remaining st acc
          = (st', Except.ok (0, acc')) ∧
        inPallets st' pid lote = inPallets st pid lote - remaining ∧
        st'.salidas = st.salidas ∧ st'.productos = st.productos ∧
        st'.outbox = st.outbox ∧ st'.seqOutbox = st.seqOutbox := by
  intro rs
  induction rs with
  | nil =>
    intro remaining st acc h0 hle _ _ _ _ _
    have hz : remaining = 0 := by
      simp only [List.map_nil, List.sum_nil] at hle
      omega
    subst hz
    exact ⟨st, acc.reverse, rfl, by omega, rfl, rfl, rfl, rfl⟩
  | cons r rest ih =>
    intro remaining st acc h0 hle hcnt hnd hrsnd hmem hscope
    rw [List.map_cons, List.nodup_cons] at hrsnd
    by_cases hrem : remaining ≤ 0
    · have hz : remaining = 0 := by omega
      subst hz
      refine ⟨st, acc.reverse, ?_, by omega, rfl, rfl, rfl, rfl⟩
      simp [elimWalk]
    · have hcr : countSalidasBetween st pid lote r.serieInicio r.serieFin = 0 :=
        hcnt r (List.mem_cons_self r rest)
      have hut : ¬ ((("pallet" : String) == "packs") = true) := by decide
      have hsum : remaining ≤ max (pallContrib r) 0
          + (rest.map (fun x => max (pallContrib x) 0)).sum := by
        simpa using hle
      have hrest0 : 0 ≤ (rest.map (fun x => max (pallContrib x) 0)).sum :=
        maxSum_nonneg rest
      by_cases hpir : pallContrib r ≤ 0
      · -- skipped range: contributes no pallets
        have hstep : elimWalk pid lote "pallet" (r :: rest) remaining st acc
            = elimWalk pid lote "pallet" rest remaining st acc := by
          simp only [elimWalk, if_neg hrem, hcr, if_neg (lt_irrefl 0),
            if_neg hut, if_pos hpir]
        have hmax : max (pallContrib r) 0 = 0 := max_eq_right hpir
        rw [hstep]
        exact ih remaining st acc h0 (by omega)
          (fun x hx => hcnt x (List.mem_cons_of_mem r hx)) hnd hrsnd.2
          (fun x hx => hmem x (List.mem_cons_of_mem r hx))
          (fun x hx => hscope x (List.mem_cons_of_mem r hx))
      · have hpir' : 0 < pallContrib r := by omega
        have hmax : max (pallContrib r) 0 = pallContrib r := max_eq_left (by omega)
        have hrble : min remaining (pallContrib r) ≤ remaining := min_le_left _ _
        have hrble2 : min remaining (pallContrib r) ≤ pallContrib r := min_le_right _ _
        have hrbpos : 0 < min remaining (pallContrib r) := lt_min (by omega) hpir'
        -- the state after mutating this range, in both sub-cases
        by_cases hfull : min remaining (pallContrib r) = pallContrib r
        · -- full-range deletion
          have hbeq : ((min remaining (pallContrib r) == pallContrib r) = true) :=
            beq_iff_eq.mpr hfull
          have hstep : elimWalk pid lote "pallet" (r :: rest) remaining st acc
              = elimWalk pid lote "pallet" rest
                  (remaining - min remaining (pallContrib r))
                  (adjust_or_delete_range st r.id none none) (r.id :: acc) := by
            simp only [elimWalk, if_neg hrem, hcr, if_neg (lt_irrefl 0),
              if_neg hut, if_neg (by omega : ¬ pallContrib r ≤ 0), hbeq, if_true]
          have hdel : (adjust_or_delete_range st r.id none none).stockPP
              = st.stockPP.filter (fun x => x.id != r.id) := rfl
          have hnd' : (((adjust_or_delete_range st r.id none none).stockPP.map
              (fun x => x.id)).Nodup) := by
            rw [hdel]
            exact nodup_ids_filter _ hnd
          have hmem' : ∀ x ∈ rest, x ∈ (adjust_or_delete_range st r.id none none).stockPP := by
            intro x hx
            rw [hdel]
            refine List.mem_filter.mpr ⟨hmem x (List.mem_cons_of_mem r hx), ?_⟩
            simp only [bne_iff_ne, ne_eq]
            intro e
            exact hrsnd.1 (by rw [← e]; exact List.mem_map_of_mem (fun y => y.id) hx)
          have hsal : (adjust_or_delete_range st r.id none none).salidas = st.salidas :=
            adjust_salidas st r.id none none
          have hdelta : inPallets (adjust_or_delete_range st r.id none none) pid lote
              = inPallets st pid lote - pallContrib r := by
            unfold inPallets
            rw [hdel]
            exact sumScope_del pid lote pallContrib
              (hmem r (List.mem_cons_self r rest)) hnd
              (hscope r (List.mem_cons_self r rest))
          rw [hstep]
          obtain ⟨st', acc', heq, hdel', hsal', hprod', hout', hseq'⟩ :=
            ih (remaining - min remaining (pallContrib r))
              (adjust_or_delete_range st r.id none none) (r.id :: acc)
              (by omega) (by omega)
              (fun x hx => by
                rw [countSalidas_congr hsal]
                exact hcnt x (List.mem_cons_of_mem r hx))
              hnd' hrsnd.2 hmem'
              (fun x hx => hscope x (List.mem_cons_of_mem r hx))
          refine ⟨st', acc', heq, ?_, ?_, ?_, ?_, ?_⟩
          · rw [hdel', hdelta]
            omega
          · rw [hsal', hsal]
          · rw [hprod', adjust_productos]
          · rw [hout', adjust_outbox]
          · rw [hseq', adjust_seqOutbox]
        · -- shrink serie_fin
          have hbeq : ((min remaining (pallContrib r) == pallContrib r) = false) :=
            beq_eq_false_iff_ne.mpr hfull
          have hstep : elimWalk pid lote "pallet" (r :: rest) remaining st acc
              = elimWalk pid lote "pallet" rest
                  (remaining - min remaining (pallContrib r))
                  (adjust_or_delete_range st r.id
                    (some (r.serieFin - min remaining (pallContrib r))) none)
                  (r.id :: acc) := by
            simp only [elimWalk, if_neg hrem, hcr, if_neg (lt_irrefl 0),
              if_neg hut, if_neg (by omega : ¬ pallContrib r ≤ 0), hbeq,
              Bool.false_eq_true, if_false]
          set nf := r.serieFin - min remaining (pallContrib r) with hnf
          set st2 := adjust_or_delete_range st r.id (some nf) none with hst2
          have hupd : st2.stockPP = st.stockPP.map (fun x =>
              if x.id == r.id then
                { x with serieFin := nf, packsFin := x.packsFin } else x) := rfl
          have hgid : ∀ x : RangeRow,
              ({ x with serieFin := nf, packsFin := x.packsFin } : RangeRow).id = x.id :=
            fun x => rfl
          have hnd' : ((st2.stockPP.map (fun x => x.id)).Nodup) := by
            rw [hupd, map_upd_id _ _ _ hgid]
            exact hnd
          have hmem' : ∀ x ∈ rest, x ∈ st2.stockPP := by
            intro x hx
            rw [hupd]
            apply mem_map_upd_of_ne r.id _ (hmem x (List.mem_cons_of_mem r hx))
            intro e
            exact hrsnd.1 (by rw [← e]; exact List.mem_map_of_mem (fun y => y.id) hx)
          have hsal : st2.salidas = st.salidas := adjust_salidas st r.id (some nf) none
          have hdelta : inPallets st2 pid lote
              = inPallets st pid lote - min remaining (pallContrib r) := by
            unfold inPallets
            rw [hupd]
            rw [sumScope_upd pid lote pallContrib
              (fun x => { x with serieFin := nf, packsFin := x.packsFin })
              (fun x => rfl) (hmem r (List.mem_cons_self r rest)) hnd
              (hscope r (List.mem_cons_self r rest))]
            have : pallContrib { r with serieFin := nf, packsFin := r.packsFin }
                = pallContrib r - min remaining (pallContrib r) := by
              simp only [pallContrib, hnf]
              omega
            rw [this]
            omega
          rw [hstep]
          obtain ⟨st', acc', heq, hdel', hsal', hprod', hout', hseq'⟩ :=
            ih (remaining - min remaining (pallContrib r)) st2 (r.id :: acc)
              (by omega) (by omega)
              (fun x hx => by
                rw [countSalidas_congr hsal]
                exact hcnt x (List.mem_cons_of_mem r hx))
              hnd' hrsnd.2 hmem'
              (fun x hx => hscope x (List.mem_cons_of_mem r hx))
          refine ⟨st', acc', heq, ?_, ?_, ?_, ?_, ?_⟩
          · rw [hdel', hdelta]
            omega
          · rw [hsal', hsal]
          · rw [hprod', hst2, adjust_productos]
          · rw [hout', hst2, adjust_outbox]
          · rw [hseq', hst2, adjust_seqOutbox]

/-- Specification of the `eliminar_batch_ultimos` walk for `unit_type =
'packs'`: with enough trailing packs in the snapshot and no outbound
movements in any snapshot range, the walk finishes with `remaining = 0` and
removes exactly the requested packs count from the scoped `packs_fin` sum,
touching nothing else. -/
theorem elimWalk_packs_ok (pid : Int) (lote : String) :
    ∀ (rs : List RangeRow) (remaining : Int) (st : PGState) (acc : List Nat),
      0 ≤ remaining →
      remaining ≤ ((rs.map (fun r => r.packsFin)).sum) →
      (∀ r ∈ rs, 0 ≤ r.packsFin) →
      (∀ r ∈ rs, countSalidasBetween st pid lote r.serieInicio r.serieFin = 0) →
      ((st.stockPP.map (fun x => x.id)).Nodup) →
      ((rs.map (fun x => x.id)).Nodup) →
      (∀ r ∈ rs, r ∈ st.stockPP) →
      (∀ r ∈ rs, scopeB pid lote r = true) →
      ∃ st' acc',
        elimWalk pid lote "packs" rs remaining st acc
          = (st', Except.ok (0, acc')) ∧
        inPacks st' pid lote = inPacks st pid lote - remaining ∧
        st'.salidas = st.salidas ∧ st'.productos = st.productos ∧
        st'.outbox = st.outbox ∧ st'.seqOutbox = st.seqOutbox := by
  intro rs
  induction rs with
  | nil =>
    intro remaining st acc h0 hle _ _ _ _ _ _
    have hz : remaining = 0 := by
      simp only [List.map_nil, List.sum_nil] at hle
      omega
    subst hz
    exact ⟨st, acc.reverse, rfl, by omega, rfl, rfl, rfl, rfl⟩
  | cons r rest ih =>
    intro remaining st acc h0 hle hpk hcnt hnd hrsnd hmem hscope
    rw [List.map_cons, List.nodup_cons] at hrsnd
    by_cases hrem : remaining ≤ 0
    · have hz : remaining = 0 := by omega
      subst hz
      refine ⟨st, acc.reverse, ?_, by omega, rfl, rfl, rfl, rfl⟩
      simp [elimWalk]
    · have hcr : countSalidasBetween st pid lote r.serieInicio r.serieFin = 0 :=
        hcnt r (List.mem_cons_self r rest)
      have hutp : ((("packs" : String) == "packs") = true) := by decide
      have hsum : remaining ≤ r.packsFin + (rest.map (fun x => x.packsFin)).sum := by
        simpa using hle
      have hrest0 : 0 ≤ (rest.map (fun x => x.packsFin)).sum :=
        packsSum_nonneg (fun x hx => hpk x (List.mem_cons_of_mem r hx))
      by_cases hz : r.packsFin = 0
      · -- skipped range: no trailing packs
        have hbz : ((r.packsFin == 0) = true) := beq_iff_eq.mpr hz
        have hstep : elimWalk pid lote "packs" (r :: rest) remaining st acc
            = elimWalk pid lote "packs" rest remaining st acc := by
          simp only [elimWalk, if_neg hrem, hcr, if_neg (lt_irrefl 0),
            if_pos hutp, if_pos hbz]
        rw [hstep]
        exact ih remaining st acc h0 (by omega)
          (fun x hx => hpk x (List.mem_cons_of_mem r hx))
          (fun x hx => hcnt x (List.mem_cons_of_mem r hx)) hnd hrsnd.2
          (fun x hx => hmem x (List.mem_cons_of_mem r hx))
          (fun x hx => hscope x (List.mem_cons_of_mem r hx))
      · have hpf : 0 < r.packsFin := by
          have := hpk r (List.mem_cons_self r rest)
          omega
        have hbz : ((r.packsFin == 0) = false) := beq_eq_false_iff_ne.mpr hz
        have hstep : elimWalk pid lote "packs" (r :: rest) remaining st acc
            = elimWalk pid lote "packs" rest
                (remaining - min remaining r.packsFin)
                (adjust_or_delete_range st r.id none
                  (some (r.packsFin - min remaining r.packsFin)))
                (r.id :: acc) := by
          simp only [elimWalk, if_neg hrem, hcr, if_neg (lt_irrefl 0),
            if_pos hutp, hbz, Bool.false_eq_true, if_false]
        set v := r.packsFin - min remaining r.packsFin with hv
        set st2 := adjust_or_delete_range st r.id none (some v) with hst2
        have hupd : st2.stockPP = st.stockPP.map (fun x =>
            if x.id == r.id then
              { x with serieFin := x.serieFin, packsFin := v } else x) := rfl
        have hgid : ∀ x : RangeRow,
            ({ x with serieFin := x.serieFin, packsFin := v } : RangeRow).id = x.id :=
          fun x => rfl
        have hnd' : ((st2.stockPP.map (fun x => x.id)).Nodup) := by
          rw [hupd, map_upd_id _ _ _ hgid]
          exact hnd
        have hmem' : ∀ x ∈ rest, x ∈ st2.stockPP := by
          intro x hx
          rw [hupd]
          apply mem_map_upd_of_ne r.id _ (hmem x (List.mem_cons_of_mem r hx))
          intro e
          exact hrsnd.1 (by rw [← e]; exact List.mem_map_of_mem (fun y => y.id) hx)
        have hsal : st2.salidas = st.salidas := adjust_salidas st r.id none (some v)
        have hdelta : inPacks st2 pid lote
            = inPacks st pid lote - min remaining r.packsFin := by
          unfold inPacks
          rw [hupd]
          rw [sumScope_upd pid lote (fun x => x.packsFin)
            (fun x => { x with serieFin := x.serieFin, packsFin := v })
            (fun x => rfl) (hmem r (List.mem_cons_self r rest)) hnd
            (hscope r (List.mem_cons_self r rest))]
          simp only [hv]
          omega
        rw [hstep]
        obtain ⟨st', acc', heq, hdel', hsal', hprod', hout', hseq'⟩ :=
          ih (remaining - min remaining r.packsFin) st2 (r.id :: acc)
            (by omega) (by omega)
            (fun x hx => hpk x (List.mem_cons_of_mem r hx))
            (fun x hx => by
              rw [countSalidas_congr hsal]
              exact hcnt x (List.mem_cons_of_mem r hx))
            hnd' hrsnd.2 hmem'
            (fun x hx => hscope x (List.mem_cons_of_mem r hx))
        refine ⟨st', acc', heq, ?_, ?_, ?_, ?_, ?_⟩
        · rw [hdel', hdelta]
          omega
        · rw [hsal', hsal]
        · rw [hprod', hst2, adjust_productos]
        · rw [hout', hst2, adjust_outbox]
        · rw [hseq', hst2, adjust_seqOutbox]

end Escaner

/- ## Forall₂ helpers for the frame property -/

section Forall2Helpers

variable {α : Type}

theorem forall2_self (P : α → α → Prop) (h : ∀ a, P a a) :
    ∀ l : List α, List.Forall₂ P l l
  | [] => List.Forall₂.nil
  | a :: as => List.Forall₂.cons (h a) (forall2_self P h as)

theorem forall2_comp (P : α → α → Prop)
    (htr : ∀ a b c, P a b → P b c → P a c) :
    ∀ {l1 l2 l3 : List α}, List.Forall₂ P l1 l2 → List.Forall₂ P l2 l3 →
      List.Forall₂ P l1 l3 := by
  intro l1 l2 l3 h12 h23
  induction h23 generalizing l1 with
  | nil =>
    cases h12
    exact List.Forall₂.nil
  | cons hbc h'' ih =>
    cases h12 with
    | cons hab h' => exact List.Forall₂.cons (htr _ _ _ hab hbc) (ih h')

theorem forall2_map_left (P : α → α → Prop) (u : α → α) :
    ∀ l : List α, (∀ x ∈ l, P (u x) x) → List.Forall₂ P (l.map u) l := by
  intro l
  induction l with
  | nil => intro _; exact List.Forall₂.nil
  | cons a as ih =>
    intro h
    exact List.Forall₂.cons (h a (List.mem_cons_self a as))
      (ih (fun x hx => h x (List.mem_cons_of_mem a hx)))

end Forall2Helpers

namespace Escaner

/-- Frame property of the packs walk: whatever happens (success, mid-walk
abort, or exhaustion), the walk never deletes a range row, never changes an
id, product, lot or serial bound, and only ever lowers `packs_fin`. -/
theorem elimWalk_packs_frame (pid : Int) (lote : String) :
    ∀ (rs : List RangeRow) (remaining : Int) (st : PGState) (acc : List Nat),
      0 ≤ remaining →
      ((rs.map (fun x => x.id)).Nodup) →
      ((st.stockPP.map (fun x => x.id)).Nodup) →
      (∀ x ∈ rs, x ∈ st.stockPP) →
      (∀ x ∈ st.stockPP, 0 ≤ x.packsFin) →
      List.Forall₂ (fun a b => a.id = b.id ∧ a.idProducto = b.idProducto ∧
          a.lote = b.lote ∧ a.serieInicio = b.serieInicio ∧
          a.serieFin = b.serieFin ∧ a.packsFin ≤ b.packsFin)
        ((elimWalk pid lote "packs" rs remaining st acc).1.stockPP)
        st.stockPP := by
  intro rs
  induction rs with
  | nil =>
    intro remaining st acc _ _ _ _ _
    exact forall2_self _ (fun a => ⟨rfl, rfl, rfl, rfl, rfl, le_refl _⟩) _
  | cons r rest ih =>
    intro remaining st acc h0 hrsnd hnd hmem hpk
    rw [List.map_cons, List.nodup_cons] at hrsnd
    by_cases hrem : remaining ≤ 0
    · have : elimWalk pid lote "packs" (r :: rest) remaining st acc
          = (st, Except.ok (remaining, acc.reverse)) := by
        simp [elimWalk, hrem]
      rw [this]
      exact forall2_self _ (fun a => ⟨rfl, rfl, rfl, rfl, rfl, le_refl _⟩) _
    · by_cases hcr : 0 < countSalidasBetween st pid lote r.serieInicio r.serieFin
      · have : elimWalk pid lote "packs" (r :: rest) remaining st acc
            = (st, Except.error (ElimErr.rangeHasSalidas
                (countSalidasBetween st pid lote r.serieInicio r.serieFin))) := by
          simp only [elimWalk, if_neg hrem, if_pos hcr]
        rw [this]
        exact forall2_self _ (fun a => ⟨rfl, rfl, rfl, rfl, rfl, le_refl _⟩) _
      · have hutp : ((("packs" : String) == "packs") = true) := by decide
        by_cases hz : r.packsFin = 0
        · have hbz : ((r.packsFin == 0) = true) := beq_iff_eq.mpr hz
          have hstep : elimWalk pid lote "packs" (r :: rest) remaining st acc
              = elimWalk pid lote "packs" rest remaining st acc := by
            simp only [elimWalk, if_neg hrem, if_neg hcr, if_pos hutp, if_pos hbz]
          rw [hstep]
          exact ih remaining st acc h0 hrsnd.2 hnd
            (fun x hx => hmem x (List.mem_cons_of_mem r hx)) hpk
        · have hbz : ((r.packsFin == 0) = false) := beq_eq_false_iff_ne.mpr hz
          have hstep : elimWalk pid lote "packs" (r :: rest) remaining st acc
              = elimWalk pid lote "packs" rest
                  (remaining - min remaining r.packsFin)
                  (adjust_or_delete_range st r.id none
                    (some (r.packsFin - min remaining r.packsFin)))
                  (r.id :: acc) := by
            simp only [elimWalk, if_neg hrem, if_neg hcr, if_pos hutp, hbz,
              Bool.false_eq_true, if_false]
          set v := r.packsFin - min remaining r.packsFin with hv
          set st2 := adjust_or_delete_range st r.id none (some v) with hst2
          have hupd : st2.stockPP = st.stockPP.map (fun x =>
              if x.id == r.id then
                { x with serieFin := x.serieFin, packsFin := v } else x) := rfl
          have hgid : ∀ x : RangeRow,
              ({ x with serieFin := x.serieFin, packsFin := v } : RangeRow).id = x.id :=
            fun x => rfl
          have hpf : 0 < r.packsFin := by
            have := hpk r (hmem r (List.mem_cons_self r rest))
            omega
          have hvle : v ≤ r.packsFin := by
            simp only [hv]
            omega
          have hv0 : 0 ≤ v := by
            simp only [hv]
            omega
          have hnd' : ((st2.stockPP.map (fun x => x.id)).Nodup) := by
            rw [hupd, map_upd_id _ _ _ hgid]
            exact hnd
          have hmem' : ∀ x ∈ rest, x ∈ st2.stockPP := by
            intro x hx
            rw [hupd]
            apply mem_map_upd_of_ne r.id _ (hmem x (List.mem_cons_of_mem r hx))
            intro e
            exact hrsnd.1 (by rw [← e]; exact List.mem_map_of_mem (fun y => y.id) hx)
          have hpk' : ∀ x ∈ st2.stockPP, 0 ≤ x.packsFin := by
            intro x hx
            rw [hupd] at hx
            rcases List.mem_map.mp hx with ⟨a, ha, rfl⟩
            by_cases hid : a.id = r.id
            · rw [if_pos (beq_iff_eq.mpr hid)]
              exact hv0
            · rw [if_neg (fun h => hid (beq_iff_eq.mp h))]
              exact hpk a ha
          have hframe2 : List.Forall₂ (fun a b => a.id = b.id ∧
              a.idProducto = b.idProducto ∧ a.lote = b.lote ∧
              a.serieInicio = b.serieInicio ∧ a.serieFin = b.serieFin ∧
              a.packsFin ≤ b.packsFin) st2.stockPP st.stockPP := by
            rw [hupd]
            apply forall2_map_left
            intro x hx
            by_cases hid : x.id = r.id
            · have hxr : x = r :=
                eq_of_mem_of_id_eq hnd (hmem r (List.mem_cons_self r rest)) hx hid
              subst hxr
              rw [if_pos (beq_iff_eq.mpr hid)]
              exact ⟨rfl, rfl, rfl, rfl, rfl, hvle⟩
            · rw [if_neg (fun h => hid (beq_iff_eq.mp h))]
              exact ⟨rfl, rfl, rfl, rfl, rfl, le_refl _⟩
          rw [hstep]
          refine forall2_comp _ ?_ (ih (remaining - min remaining r.packsFin)
            st2 (r.id :: acc) (by omega) hrsnd.2 hnd' hmem' hpk') hframe2
          intro a b c hab hbc
          exact ⟨hab.1.trans hbc.1, hab.2.1.trans hbc.2.1,
            hab.2.2.1.trans hbc.2.2.1, hab.2.2.2.1.trans hbc.2.2.2.1,
            hab.2.2.2.2.1.trans hbc.2.2.2.2.1,
            le_trans hab.2.2.2.2.2 hbc.2.2.2.2.2⟩

/- ### Glue between the snapshot (`get_last_ingreso_ranges`) and the state -/

theorem ranges_perm (st : PGState) (pid : Int) (lote : String) :
    List.Perm (get_last_ingreso_ranges st pid lote)
      (st.stockPP.filter (scopeB pid lote)) :=
  sortL_perm _ _

theorem ranges_mem {st : PGState} {pid : Int} {lote : String} {r : RangeRow}
    (h : r ∈ get_last_ingreso_ranges st pid lote) :
    r ∈ st.stockPP ∧ scopeB pid lote r = true := by
  have h' := (ranges_perm st pid lote).mem_iff.mp h
  exact ⟨(List.mem_filter.mp h').1, (List.mem_filter.mp h').2⟩

theorem ranges_nodup_ids {st : PGState} {pid : Int} {lote : String}
    (hnd : (st.stockPP.map (fun x => x.id)).Nodup) :
    ((get_last_ingreso_ranges st pid lote).map (fun x => x.id)).Nodup := by
  have h1 : ((st.stockPP.filter (scopeB pid lote)).map (fun x => x.id)).Nodup :=
    nodup_ids_filter _ hnd
  exact ((ranges_perm st pid lote).map (fun x => x.id)).symm.nodup h1

theorem ranges_sum (st : PGState) (pid : Int) (lote : String)
    (f : RangeRow → Int) :
    ((get_last_ingreso_ranges st pid lote).map f).sum
      = ((st.stockPP.filter (scopeB pid lote)).map f).sum :=
  ((ranges_perm st pid lote).map f).sum_eq

theorem ranges_ne_nil {st : PGState} {pid : Int} {lote : String}
    (h : st.stockPP.filter (scopeB pid lote) ≠ []) :
    get_last_ingreso_ranges st pid lote ≠ [] := by
  intro he
  have hp := ranges_perm st pid lote
  rw [he] at hp
  exact h hp.symm.eq_nil

theorem outPallets_nonneg (st : PGState) (pid : Int) (lote : String) :
    0 ≤ outPallets st pid lote := by
  apply sum_nonneg_of_mem
  intro x hx
  rcases List.mem_map.mp hx with ⟨a, _, rfl⟩
  by_cases h : (a.unitType == "pallet") = true <;> simp [h]

theorem outPacks_nonneg {st : PGState} (pid : Int) (lote : String)
    (h : ∀ s ∈ st.salidas, 0 ≤ s.packsQty) :
    0 ≤ outPacks st pid lote := by
  apply sum_nonneg_of_mem
  intro x hx
  rcases List.mem_map.mp hx with ⟨a, ha, rfl⟩
  by_cases hh : (a.unitType == "packs") = true
  · rw [if_pos hh]
    exact h a (List.mem_filter.mp ha).1
  · rw [if_neg hh]

theorem netOf_pallet (st : PGState) (pid : Int) (lote : String) :
    netOf st pid lote "pallet" = inPallets st pid lote - outPallets st pid lote := by
  rfl

theorem netOf_packs (st : PGState) (pid : Int) (lote : String) :
    netOf st pid lote "packs" = inPacks st pid lote - outPacks st pid lote := by
  have h : ((("packs" : String) == "pallet") = false) := by decide
  unfold netOf
  rw [if_neg (by simp [h])]
  rfl

theorem scope_ne_nil_of_inPallets_pos {st : PGState} {pid : Int}
    {lote : String} (h : 0 < inPallets st pid lote) :
    st.stockPP.filter (scopeB pid lote) ≠ [] := by
  intro he
  unfold inPallets at h
  rw [he] at h
  simp at h

theorem scope_ne_nil_of_inPacks_pos {st : PGState} {pid : Int}
    {lote : String} (h : 0 < inPacks st pid lote) :
    st.stockPP.filter (scopeB pid lote) ≠ [] := by
  intro he
  unfold inPacks at h
  rw [he] at h
  simp at h

theorem queue_outbox_stockPP (st : PGState) (p : SheetsPayload) :
    (queue_outbox st p).stockPP = st.stockPP := rfl

theorem queue_outbox_salidas (st : PGState) (p : SheetsPayload) :
    (queue_outbox st p).salidas = st.salidas := rfl

theorem outPallets_congr {st st' : PGState} (h : st'.salidas = st.salidas)
    (pid : Int) (lote : String) :
    outPallets st' pid lote = outPallets st pid lote := by
  simp [outPallets, h]

theorem outPacks_congr {st st' : PGState} (h : st'.salidas = st.salidas)
    (pid : Int) (lote : String) :
    outPacks st' pid lote = outPacks st pid lote := by
  simp [outPacks, h]

/-- Success of `eliminar_batch_ultimos` for pallets under the rollback
preconditions. -/
theorem eliminar_pallet_success (st : PGState) (pid : Int) (lote : String)
    (n : Int) (hn : 0 < n)
    (hnd : (st.stockPP.map (fun x => x.id)).Nodup)
    (hguard : ∀ r ∈ st.stockPP, scopeB pid lote r = true →
      countSalidasBetween st pid lote r.serieInicio r.serieFin = 0)
    (hnet : n ≤ netOf st pid lote "pallet") :
    ∃ st2 res,
      eliminar_batch_ultimos st pid lote "pallet" n = (st2, Except.ok res) ∧
      netOf st2 pid lote "pallet" = netOf st pid lote "pallet" - n := by
  have hnp := netOf_pallet st pid lote
  have houtp := outPallets_nonneg st pid lote
  have hinp : n ≤ inPallets st pid lote := by omega
  have hfne : st.stockPP.filter (scopeB pid lote) ≠ [] :=
    scope_ne_nil_of_inPallets_pos (by omega)
  have hrne : get_last_ingreso_ranges st pid lote ≠ [] := ranges_ne_nil hfne
  have hb : n ≤ (((get_last_ingreso_ranges st pid lote).map
      (fun r => max (pallContrib r) 0)).sum) := by
    rw [ranges_sum]
    have hle : ((st.stockPP.filter (scopeB pid lote)).map pallContrib).sum
        ≤ ((st.stockPP.filter (scopeB pid lote)).map
            (fun r => max (pallContrib r) 0)).sum :=
      List.sum_le_sum (fun i _ => le_max_left _ _)
    have : inPallets st pid lote
        = ((st.stockPP.filter (scopeB pid lote)).map pallContrib).sum := rfl
    omega
  obtain ⟨st', acc', heq, hdelta, hsal, _, _, _⟩ :=
    elimWalk_pallet_ok pid lote (get_last_ingreso_ranges st pid lote) n st []
      (le_of_lt hn) hb
      (fun r hr => hguard r (ranges_mem hr).1 (ranges_mem hr).2)
      hnd (ranges_nodup_ids hnd)
      (fun r hr => (ranges_mem hr).1)
      (fun r hr => (ranges_mem hr).2)
  have hg : stock_guard "pallet" (compute_net_stock st pid lote).1
      (compute_net_stock st pid lote).2.1 n = none := by
    have hnet' : n ≤ (compute_net_stock st pid lote).1 := hnet
    unfold stock_guard
    rw [if_pos (by decide : ((("pallet" : String) == "pallet") = true))]
    rw [if_neg (not_lt.mpr hnet')]
  have hie : (get_last_ingreso_ranges st pid lote).isEmpty = false := by
    cases hc : get_last_ingreso_ranges st pid lote
    · exact absurd hc hrne
    · rfl
  have hrun : eliminar_batch_ultimos st pid lote "pallet" n
      = (queue_outbox st' (build_payload_for_product_lote_net st' pid lote),
         Except.ok (acc',
           (get_last_ingreso_ranges st' pid lote).head?.map (fun r => r.serieFin),
           (compute_net_stock st pid lote).2.2)) := by
    simp only [eliminar_batch_ultimos, hg, hie, Bool.false_eq_true, if_false,
      heq, lt_irrefl, if_neg (lt_irrefl 0)]
  refine ⟨_, _, hrun, ?_⟩
  have h1 : netOf (queue_outbox st'
      (build_payload_for_product_lote_net st' pid lote)) pid lote "pallet"
      = inPallets st' pid lote - outPallets st' pid lote := by
    rw [netOf_pallet]
    rfl
  rw [h1, hdelta, outPallets_congr hsal, hnp]
  omega

/-- Success of `eliminar_batch_ultimos` for packs under the rollback
preconditions. -/
theorem eliminar_packs_success (st : PGState) (pid : Int) (lote : String)
    (n : Int) (hn : 0 < n)
    (hnd : (st.stockPP.map (fun x => x.id)).Nodup)
    (hpk : ∀ r ∈ st.stockPP, 0 ≤ r.packsFin)
    (hsq : ∀ s ∈ st.salidas, 0 ≤ s.packsQty)
    (hguard : ∀ r ∈ st.stockPP, scopeB pid lote r = true →
      countSalidasBetween st pid lote r.serieInicio r.serieFin = 0)
    (hnet : n ≤ netOf st pid lote "packs") :
    ∃ st2 res,
      eliminar_batch_ultimos st pid lote "packs" n = (st2, Except.ok res) ∧
      netOf st2 pid lote "packs" = netOf st pid lote "packs" - n := by
  have hnp := netOf_packs st pid lote
  have houtp := outPacks_nonneg pid lote hsq
  have hinp : n ≤ inPacks st pid lote := by omega
  have hfne : st.stockPP.filter (scopeB pid lote) ≠ [] :=
    scope_ne_nil_of_inPacks_pos (by omega)
  have hrne : get_last_ingreso_ranges st pid lote ≠ [] := ranges_ne_nil hfne
  have hb : n ≤ (((get_last_ingreso_ranges st pid lote).map
      (fun r => r.packsFin)).sum) := by
    rw [ranges_sum]
    exact hinp
  obtain ⟨st', acc', heq, hdelta, hsal, _, _, _⟩ :=
    elimWalk_packs_ok pid lote (get_last_ingreso_ranges st pid lote) n st []
      (le_of_lt hn) hb
      (fun r hr => hpk r (ranges_mem hr).1)
      (fun r hr => hguard r (ranges_mem hr).1 (ranges_mem hr).2)
      hnd (ranges_nodup_ids hnd)
      (fun r hr => (ranges_mem hr).1)
      (fun r hr => (ranges_mem hr).2)
  have hg : stock_guard "packs" (compute_net_stock st pid lote).1
      (compute_net_stock st pid lote).2.1 n = none := by
    have hnet' : n ≤ (compute_net_stock st pid lote).2.1 := by
      rw [netOf_packs] at hnet
      exact hnet
    unfold stock_guard
    rw [if_neg (by decide : ¬ ((("packs" : String) == "pallet") = true))]
    rw [if_pos (by decide : ((("packs" : String) == "packs") = true))]
    rw [if_neg (not_lt.mpr hnet')]
  have hie : (get_last_ingreso_ranges st pid lote).isEmpty = false := by
    cases hc : get_last_ingreso_ranges st pid lote
    · exact absurd hc hrne
    · rfl
  have hrun : eliminar_batch_ultimos st pid lote "packs" n
      = (queue_outbox st' (build_payload_for_product_lote_net st' pid lote),
         Except.ok (acc',
           (get_last_ingreso_ranges st' pid lote).head?.map (fun r => r.serieFin),
           (compute_net_stock st pid lote).2.2)) := by
    simp only [eliminar_batch_ultimos, hg, hie, Bool.false_eq_true, if_false,
      heq, lt_irrefl, if_neg (lt_irrefl 0)]
  refine ⟨_, _, hrun, ?_⟩
  have h1 : netOf (queue_outbox st'
      (build_payload_for_product_lote_net st' pid lote)) pid lote "packs"
      = inPacks st' pid lote - outPacks st' pid lote := by
    rw [netOf_packs]
    rfl
  rw [h1, hdelta, outPacks_congr hsal, hnp]
  omega

/-- `eliminar_batch_ultimos` fails up-front, with the state untouched, when
the requested quantity exceeds the net stock (pallet case). -/
theorem eliminar_pallet_insufficient (st : PGState) (pid : Int)
    (lote : String) (n : Int) (hnet : netOf st pid lote "pallet" < n) :
    eliminar_batch_ultimos st pid lote "pallet" n
      = (st, Except.error (ElimErr.insufficientPallets
          (compute_net_stock st pid lote).1 n)) := by
  have hnet' : (compute_net_stock st pid lote).1 < n := hnet
  have hg : stock_guard "pallet" (compute_net_stock st pid lote).1
      (compute_net_stock st pid lote).2.1 n
      = some (ElimErr.insufficientPallets (compute_net_stock st pid lote).1 n) := by
    unfold stock_guard
    rw [if_pos (by decide : ((("pallet" : String) == "pallet") = true))]
    rw [if_pos hnet']
  simp only [eliminar_batch_ultimos, hg]

/-- `eliminar_batch_ultimos` fails up-front, with the state untouched, when
the requested quantity exceeds the net stock (packs case). -/
theorem eliminar_packs_insufficient (st : PGState) (pid : Int)
    (lote : String) (n : Int) (hnet : netOf st pid lote "packs" < n) :
    eliminar_batch_ultimos st pid lote "packs" n
      = (st, Except.error (ElimErr.insufficientPacks
          (compute_net_stock st pid lote).2.1 n)) := by
  have hnet' : (compute_net_stock st pid lote).2.1 < n := by
    rw [netOf_packs] at hnet
    exact hnet
  have hg : stock_guard "packs" (compute_net_stock st pid lote).1
      (compute_net_stock st pid lote).2.1 n
      = some (ElimErr.insufficientPacks (compute_net_stock st pid lote).2.1 n) := by
    unfold stock_guard
    rw [if_neg (by decide : ¬ ((("packs" : String) == "pallet") = true))]
    rw [if_pos (by decide : ((("packs" : String) == "packs") = true))]
    rw [if_pos hnet']
  simp only [eliminar_batch_ultimos, hg]

end Escaner

/- ## Claim theorems -/

open Escaner Salida Generacion Examples

/-- C1: for every product+lot, `unit_type ∈ {pallet, packs}` and quantity
`n > 0`, on a well-formed ledger state (distinct range ids, nonnegative
`packs_fin` and `packs_qty`) in which no inbound range of the product+lot has
an outbound movement inside its serial span: if the pre-call net stock of the
requested unit type is at least `n`, `eliminar_batch_ultimos` succeeds and
the post-call net stock of that unit type is exactly the pre-call net minus
`n`; if the pre-call net is below `n`, it fails with an insufficient-stock
error and the state (hence every range) is unchanged. -/
theorem c1_rollback_net_invariant (st : PGState) (pid : Int) (lote : String)
    (ut : String) (n : Int)
    (hut : ut = "pallet" ∨ ut = "packs") (hn : 0 < n)
    (hnd : (st.stockPP.map (fun x => x.id)).Nodup)
    (hpk : ∀ r ∈ st.stockPP, 0 ≤ r.packsFin)
    (hsq : ∀ s ∈ st.salidas, 0 ≤ s.packsQty)
    (hguard : ∀ r ∈ st.stockPP, scopeB pid lote r = true →
      countSalidasBetween st pid lote r.serieInicio r.serieFin = 0) :
    (n ≤ netOf st pid lote ut →
      (∃ res, (eliminar_batch_ultimos st pid lote ut n).2 = Except.ok res) ∧
      netOf (eliminar_batch_ultimos st pid lote ut n).1 pid lote ut
        = netOf st pid lote ut - n) ∧
    (netOf st pid lote ut < n →
      (eliminar_batch_ultimos st pid lote ut n).1 = st ∧
      ∃ e, (eliminar_batch_ultimos st pid lote ut n).2 = Except.error e ∧
        e.isInsufficient = true) := by
  rcases hut with rfl | rfl
  · constructor
    · intro hnet
      obtain ⟨st2, res, hrun, hdelta⟩ :=
        eliminar_pallet_success st pid lote n hn hnd hguard hnet
      rw [hrun]
      exact ⟨⟨res, rfl⟩, hdelta⟩
    · intro hnet
      rw [eliminar_pallet_insufficient st pid lote n hnet]
      exact ⟨rfl, _, rfl, rfl⟩
  · constructor
    · intro hnet
      obtain ⟨st2, res, hrun, hdelta⟩ :=
        eliminar_packs_success st pid lote n hn hnd hpk hsq hguard hnet
      rw [hrun]
      exact ⟨⟨res, rfl⟩, hdelta⟩
    · intro hnet
      rw [eliminar_packs_insufficient st pid lote n hnet]
      exact ⟨rfl, _, rfl, rfl⟩

/-- Witness for C1 at a concrete input: one range [1,10] with 7 trailing
packs, rollback of 3 pallets (net 9 → 6). -/
theorem c1_rollback_net_invariant_witness :
    ((0 : Int) < 3 ∧ (3 : Int) ≤ netOf stRange 1 "A" "pallet") ∧
    ((∃ res, (eliminar_batch_ultimos stRange 1 "A" "pallet" 3).2 = Except.ok res) ∧
      netOf (eliminar_batch_ultimos stRange 1 "A" "pallet" 3).1 1 "A" "pallet"
        = netOf stRange 1 "A" "pallet" - 3) :=
  ⟨⟨by decide, by decide⟩,
   (c1_rollback_net_invariant stRange 1 "A" "pallet" 3 (Or.inl rfl) (by decide)
     (by decide) (by decide) (by decide) (by decide)).1 (by decide)⟩

/-- C2 counterexample: with ranges [1,5] and [10,15] and an outbound
movement at serial 3 (inside the older range only), a rollback of 10 pallets
passes the net precondition, deletes the newer range [10,15], and only then
hits the guard on [1,5]: the call raises `RangeAlreadyConsumed` but the
ledger has already been mutated, contradicting "applies no mutation at
all". -/
theorem c2_partial_mutation_counterexample :
    (eliminar_batch_ultimos stTwoRanges 1 "A" "pallet" 10).2
      = Except.error (ElimErr.rangeHasSalidas 1) ∧
    (eliminar_batch_ultimos stTwoRanges 1 "A" "pallet" 10).1.stockPP
      ≠ stTwoRanges.stockPP := by
  decide

/-- C2 (amended): the rollback walk aborts on the first offending range it
touches, wherever in the walk order that range sits.  If the snapshot order
of the ranges is `pre ++ r :: post`, no range of `pre` has an outbound
movement in its serial span, `r` has one, the net precondition for the
requested amount holds, and the amount exceeds what the ranges of `pre` can
absorb (so the walk reaches `r` with remaining > 0), then
`eliminar_batch_ultimos` raises `RangeAlreadyConsumed`, and the offending
range `r` and every not-yet-walked range of `post` are still present,
unchanged, in the final state, with the movement ledger, products and outbox
untouched.  Ranges of `pre` may already have been mutated or deleted, since
each range mutation commits independently — see the counterexample. -/
theorem c2_rollback_consumed_guard (st : PGState) (pid : Int) (lote : String)
    (ut : String) (n : Int) (pre post : List RangeRow) (r : RangeRow)
    (hut : ut = "pallet" ∨ ut = "packs")
    (hnet : n ≤ netOf st pid lote ut)
    (hnd : (st.stockPP.map (fun x => x.id)).Nodup)
    (hsplit : get_last_ingreso_ranges st pid lote = pre ++ r :: post)
    (hro : 0 < countSalidasBetween st pid lote r.serieInicio r.serieFin)
    (hpre : ∀ q ∈ pre,
      countSalidasBetween st pid lote q.serieInicio q.serieFin = 0)
    (htouch : ((pre.map (fun q => if ut == "packs" then max q.packsFin 0
        else max (pallContrib q) 0)).sum) < n) :
    ∃ st',
      eliminar_batch_ultimos st pid lote ut n
        = (st', Except.error (ElimErr.rangeHasSalidas
            (countSalidasBetween st pid lote r.serieInicio r.serieFin))) ∧
      st'.salidas = st.salidas ∧ st'.productos = st.productos ∧
      st'.outbox = st.outbox ∧ st'.seqOutbox = st.seqOutbox ∧
      r ∈ st'.stockPP ∧ (∀ q ∈ post, q ∈ st'.stockPP) := by
  have hndw : (((pre ++ r :: post).map (fun x => x.id)).Nodup) := by
    rw [← hsplit]
    exact ranges_nodup_ids hnd
  have hmemw : ∀ q ∈ r :: post, q ∈ st.stockPP := by
    intro q hq
    exact (ranges_mem (by
      rw [hsplit]
      exact List.mem_append.mpr (Or.inr hq))).1
  obtain ⟨st', heq, hsal, hprod, hout, hseq, hrm, hpm⟩ :=
    elimWalk_consumed pid lote ut r post pre n st [] hro hpre hndw hmemw htouch
  have hie : (pre ++ r :: post).isEmpty = false := by
    cases pre with
    | nil => rfl
    | cons a l => rfl
  refine ⟨st', ?_, hsal, hprod, hout, hseq, hrm, hpm⟩
  rcases hut with rfl | rfl
  · have hg : stock_guard "pallet" (compute_net_stock st pid lote).1
        (compute_net_stock st pid lote).2.1 n = none := by
      have hnet' : n ≤ (compute_net_stock st pid lote).1 := hnet
      unfold stock_guard
      rw [if_pos (by decide : ((("pallet" : String) == "pallet") = true))]
      rw [if_neg (not_lt.mpr hnet')]
    simp only [eliminar_batch_ultimos, hg, hsplit, hie, Bool.false_eq_true,
      if_false, heq]
  · have hg : stock_guard "packs" (compute_net_stock st pid lote).1
        (compute_net_stock st pid lote).2.1 n = none := by
      have hnet' : n ≤ (compute_net_stock st pid lote).2.1 := by
        rw [netOf_packs] at hnet
        exact hnet
      unfold stock_guard
      rw [if_neg (by decide : ¬ ((("packs" : String) == "pallet") = true))]
      rw [if_pos (by decide : ((("packs" : String) == "packs") = true))]
      rw [if_neg (not_lt.mpr hnet')]
    simp only [eliminar_batch_ultimos, hg, hsplit, hie, Bool.false_eq_true,
      if_false, heq]

/-- Witness for the amended C2 with the offending range in a *non-head*
position: ranges [10,15] (clean) and [1,5] (consumed at serial 3), rollback
of 10 pallets (net 10 ≥ 10, and [10,15] absorbs only 6 < 10, so the walk
reaches [1,5]): the call fails with `RangeAlreadyConsumed` and the offending
range [1,5] is still present unchanged. -/
theorem c2_rollback_consumed_guard_witness :
    (0 < countSalidasBetween stTwoRanges 1 "A" 1 5) ∧
    ∃ st', eliminar_batch_ultimos stTwoRanges 1 "A" "pallet" 10
        = (st', Except.error (ElimErr.rangeHasSalidas
            (countSalidasBetween stTwoRanges 1 "A" 1 5))) ∧
      st'.salidas = stTwoRanges.salidas ∧
      st'.productos = stTwoRanges.productos ∧
      st'.outbox = stTwoRanges.outbox ∧
      st'.seqOutbox = stTwoRanges.seqOutbox ∧
      (⟨1, 1, "A", 1, 5, 0⟩ : RangeRow) ∈ st'.stockPP ∧
      (∀ q ∈ ([] : List RangeRow), q ∈ st'.stockPP) :=
  ⟨by decide,
   c2_rollback_consumed_guard stTwoRanges 1 "A" "pallet" 10
     [⟨2, 1, "A", 10, 15, 0⟩] [] ⟨1, 1, "A", 1, 5, 0⟩ (Or.inl rfl)
     (by decide) (by decide) (by decide) (by decide) (by decide) (by decide)⟩

/-- C9: a packs rollback, whatever its outcome, keeps every inbound range
row of the state (no deletion), with id, product, lot, `serie_inicio` and
`serie_fin` unchanged; only `packs_fin` values may decrease (ranges with
`packs_fin = 0` are skipped, and a range reaching 0 is kept). -/
theorem c9_packs_rollback_frame (st : PGState) (pid : Int) (lote : String)
    (n : Int) (hn : 0 ≤ n)
    (hnd : (st.stockPP.map (fun x => x.id)).Nodup)
    (hpk : ∀ r ∈ st.stockPP, 0 ≤ r.packsFin) :
    List.Forall₂ (fun a b => a.id = b.id ∧ a.idProducto = b.idProducto ∧
        a.lote = b.lote ∧ a.serieInicio = b.serieInicio ∧
        a.serieFin = b.serieFin ∧ a.packsFin ≤ b.packsFin)
      ((eliminar_batch_ultimos st pid lote "packs" n).1.stockPP)
      st.stockPP := by
  have hrefl := forall2_self
    (fun (a b : RangeRow) => a.id = b.id ∧ a.idProducto = b.idProducto ∧
      a.lote = b.lote ∧ a.serieInicio = b.serieInicio ∧
      a.serieFin = b.serieFin ∧ a.packsFin ≤ b.packsFin)
    (fun a => ⟨rfl, rfl, rfl, rfl, rfl, le_refl _⟩) st.stockPP
  have hframe := elimWalk_packs_frame pid lote
    (get_last_ingreso_ranges st pid lote) n st [] hn
    (ranges_nodup_ids hnd) hnd (fun x hx => (ranges_mem hx).1) hpk
  cases hg : stock_guard "packs" (compute_net_stock st pid lote).1
      (compute_net_stock st pid lote).2.1 n with
  | some e =>
    simp only [eliminar_batch_ultimos, hg]
    exact hrefl
  | none =>
    cases hie : (get_last_ingreso_ranges st pid lote).isEmpty with
    | true =>
      simp only [eliminar_batch_ultimos, hg, hie, if_true]
      exact hrefl
    | false =>
      rcases hw : elimWalk pid lote "packs" (get_last_ingreso_ranges st pid lote)
          n st [] with ⟨st1, res⟩
      rw [hw] at hframe
      cases res with
      | error e =>
        simp only [eliminar_batch_ultimos, hg, hie, Bool.false_eq_true,
          if_false, hw]
        exact hframe
      | ok p =>
        by_cases hrem : 0 < p.1
        · simp only [eliminar_batch_ultimos, hg, hie, Bool.false_eq_true,
            if_false, hw, if_pos hrem]
          exact hframe
        · simp only [eliminar_batch_ultimos, hg, hie, Bool.false_eq_true,
            if_false, hw, if_neg hrem]
          exact hframe

/-- Witness for C9 at a concrete input: one range [1,10] with 7 trailing
packs, packs rollback of 3. -/
theorem c9_packs_rollback_frame_witness :
    (0 : Int) ≤ 3 ∧
    List.Forall₂ (fun a b => a.id = b.id ∧ a.idProducto = b.idProducto ∧
        a.lote = b.lote ∧ a.serieInicio = b.serieInicio ∧
        a.serieFin = b.serieFin ∧ a.packsFin ≤ b.packsFin)
      ((eliminar_batch_ultimos stRange 1 "A" "packs" 3).1.stockPP)
      stRange.stockPP :=
  ⟨by decide,
   c9_packs_rollback_frame stRange 1 "A" 3 (by decide) (by decide) (by decide)⟩

/-- C7: for every state and scope, `compute_net_stock` returns exactly the
spec formula — pallets: sum over ranges of `(serial_end - serial_start + 1)`
minus 1 when `trailing_packs > 0`, minus one per pallet-type outbound
movement; packs: sum of `trailing_packs` minus the sum of `packs_qty` over
packs-type movements.  In particular a single range [1,10] with
`trailing_packs = 7` and no outbound movements yields net (9, 7). -/
theorem c7_compute_net_formula :
    (∀ (st : PGState) (pid : Int) (lote : String),
      (compute_net_stock st pid lote).1
        = specNetPallets (st.stockPP.filter (scopeB pid lote))
            (st.salidas.filter (fun s => s.idProducto == pid && s.lote == lote)) ∧
      (compute_net_stock st pid lote).2.1
        = specNetPacks (st.stockPP.filter (scopeB pid lote))
            (st.salidas.filter (fun s => s.idProducto == pid && s.lote == lote))) ∧
    compute_net_stock stRange 1 "A" = (9, 7, "Widget") := by
  constructor
  · intro st pid lote
    constructor
    · show inPallets st pid lote - outPallets st pid lote = _
      unfold specNetPallets
      have h2 : outPallets st pid lote
          = (((st.salidas.filter (fun s => s.idProducto == pid && s.lote == lote)).filter
              (fun s => s.unitType == "pallet")).length : Int) :=
        sum_map_ite_one _ _
      rw [h2]
      rfl
    · show inPacks st pid lote - outPacks st pid lote = _
      unfold specNetPacks
      have h2 : outPacks st pid lote
          = (((st.salidas.filter (fun s => s.idProducto == pid && s.lote == lote)).filter
              (fun s => s.unitType == "packs")).map (fun s => s.packsQty)).sum :=
        sum_map_ite_val _ _ _
      rw [h2]
      rfl
  · decide

/-- C8 counterexample: in salida.py, `compute_net_available_lote` clamps.
With no stock rows and one PALLET baja of quantity 2 for product 5, lot "A",
the pallet difference is −2, yet the function returns 0 — the negative value
does not propagate to the caller. -/
theorem c8_clamp_counterexample :
    lote_in_pallets sOverdrawn 5 "A" - lote_out_pallets sOverdrawn 5 "A" = -2 ∧
    (compute_net_available_lote sOverdrawn 5 "A").1 = 0 := by
  decide

/-- C8 (amended): escaner.py's `compute_net_stock` — the Reconciliation
Engine used by the range ledger — never clamps: it returns the plain
differences, and whenever outbound exceeds inbound the negative net
propagates to the caller.  (salida.py's `compute_net_available_lote` and
`compute_net_totals_product` do clamp their differences at zero, see the
counterexample.) -/
theorem c8_ledger_net_no_clamp (st : PGState) (pid : Int) (lote : String) :
    ((compute_net_stock st pid lote).1
        = inPallets st pid lote - outPallets st pid lote ∧
      (compute_net_stock st pid lote).2.1
        = inPacks st pid lote - outPacks st pid lote) ∧
    (inPallets st pid lote < outPallets st pid lote →
      (compute_net_stock st pid lote).1 < 0) ∧
    (inPacks st pid lote < outPacks st pid lote →
      (compute_net_stock st pid lote).2.1 < 0) := by
  refine ⟨⟨rfl, rfl⟩, ?_, ?_⟩
  · intro h
    have he : (compute_net_stock st pid lote).1
        = inPallets st pid lote - outPallets st pid lote := rfl
    omega
  · intro h
    have he : (compute_net_stock st pid lote).2.1
        = inPacks st pid lote - outPacks st pid lote := rfl
    omega

/-- Witness for the amended C8: one outbound pallet with no inbound ranges
yields net −1. -/
theorem c8_ledger_net_no_clamp_witness :
    inPallets stOverdrawn 5 "A" < outPallets stOverdrawn 5 "A" ∧
    (compute_net_stock stOverdrawn 5 "A").1 < 0 :=
  ⟨by decide, (c8_ledger_net_no_clamp stOverdrawn 5 "A").2.1 (by decide)⟩

/-- C5 counterexample: on the spec's payload, `parse_qr_payload` does not
succeed — `int("42.0")` raises, because the parser applies `int()` directly
to the PRD value and never calls the Identifier Normalizer (nor does it
return any dates). -/
theorem c5_parse_counterexample :
    parse_qr_payload
        "NS=000007|PRD=42.0|DSC=Widget|LOT=010124|FEC=01/01/24|VTO=01/07/24"
      = Except.error (QRErr.intConv "PRD") := by
  decide

/-- C5 (amended): the payload with `PRD=42.0` makes `parse_qr_payload` raise
a `ValueError` from `int("42.0")`; with `PRD=42` it parses to serial 7,
product id 42 and lot "010124" (no dates are returned and no normalizer is
applied by the parser).  Separately, the Identifier Normalizer maps "42.0"
to "42" and the Date Normalizer maps "01/01/24" to "2024-01-01" and
"01/07/24" to "2024-07-01". -/
theorem c5_parse_and_normalizers :
    parse_qr_payload
        "NS=000007|PRD=42.0|DSC=Widget|LOT=010124|FEC=01/01/24|VTO=01/07/24"
      = Except.error (QRErr.intConv "PRD") ∧
    parse_qr_payload
        "NS=000007|PRD=42|DSC=Widget|LOT=010124|FEC=01/01/24|VTO=01/07/24"
      = Except.ok ⟨7, 42, "010124".data⟩ ∧
    normalize_id_value "42.0" = "42" ∧
    normalize_date_iso "01/01/24" = "2024-01-01" ∧
    normalize_date_iso "01/07/24" = "2024-07-01" := by
  refine ⟨by decide, by decide, by decide, by decide, by decide⟩

/-- C6 counterexample: a payload containing the `|`/`=` markers in which the
description, creation date and expiry date keys are entirely missing parses
successfully — the parser does not raise `InvalidPayload` for them, because
only NS, PRD and LOT are required. -/
theorem c6_three_keys_counterexample :
    ("NS=1|PRD=2|LOT=L".data.contains '|' = true ∧
      "NS=1|PRD=2|LOT=L".data.contains '=' = true) ∧
    parse_qr_payload "NS=1|PRD=2|LOT=L" = Except.ok ⟨1, 2, "L".data⟩ := by
  refine ⟨⟨by decide, by decide⟩, by decide⟩

/-- C6 (amended): for every input whose stripped form contains at least one
`|` and one `=`, the parser raises the `InvalidPayload` error (a fixed
message) whenever any of the THREE required keys NS, PRD, LOT is missing or
empty — DSC, FEC and VTO are not checked; and every input whose stripped
form lacks `|` or lacks `=` raises the `UnrecognizedFormat` error.  The
parser is pure, so it never partially applies. -/
theorem c6_parse_error_paths (raw : List Char) :
    ((trimChars raw).contains '|' = true → (trimChars raw).contains '=' = true →
      (qr_get raw ['N', 'S'] = [] ∨ qr_get raw ['P', 'R', 'D'] = [] ∨
        qr_get raw ['L', 'O', 'T'] = []) →
      parseQRChars raw = Except.error QRErr.camposFaltantes) ∧
    ((trimChars raw).contains '|' = false ∨ (trimChars raw).contains '=' = false →
      parseQRChars raw = Except.error QRErr.formatoNoReconocido) := by
  constructor
  · intro h1 h2 h3
    simp only [parseQRChars]
    rw [if_pos (by rw [h1, h2]; decide)]
    have he : ((qr_get raw ['N', 'S']).isEmpty
        || (qr_get raw ['P', 'R', 'D']).isEmpty
        || (qr_get raw ['L', 'O', 'T']).isEmpty) = true := by
      rcases h3 with h | h | h <;> rw [h] <;> simp
    rw [if_pos he]
  · intro h
    simp only [parseQRChars]
    have hc : ((trimChars raw).contains '|' && (trimChars raw).contains '=')
        = false := by
      rcases h with h | h
      · rw [h]
        rfl
      · rw [h]
        exact Bool.and_false _
    rw [if_neg (by rw [hc]; decide)]

/-- Witness for the amended C6: an empty PRD value raises the
missing-fields error; an input without markers raises the
format-not-recognised error. -/
theorem c6_parse_error_paths_witness :
    parseQRChars "NS=1|PRD=|LOT=L".data = Except.error QRErr.camposFaltantes ∧
    parseQRChars "hello world".data = Except.error QRErr.formatoNoReconocido :=
  ⟨(c6_parse_error_paths "NS=1|PRD=|LOT=L".data).1 (by decide) (by decide)
      (by decide),
   (c6_parse_error_paths "hello world".data).2 (by decide)⟩

/-- C3 counterexample: with two PALLET stock rows (serials 10 and 11) for
product 5 lot "A", scanning the same QR (serial 10) twice succeeds both
times: `baja_por_qr` records no serial and has no duplicate check, so after
the second call the bajas ledger reflects two consumptions (lot net reaches
0), not one. -/
theorem c3_duplicate_counterexample :
    (baja_por_qr (baja_por_qr sTwoPallets rawSerial10 "Venta" none true).1
        rawSerial10 "Venta" none true).2
      = Except.ok ⟨2, 5, "P5", "A", 10, "PALLET", 1, 0, 0, false⟩ ∧
    (baja_por_qr (baja_por_qr sTwoPallets rawSerial10 "Venta" none true).1
        rawSerial10 "Venta" none true).1.bajas.length = 2 ∧
    compute_net_available_lote
      (baja_por_qr (baja_por_qr sTwoPallets rawSerial10 "Venta" none true).1
        rawSerial10 "Venta" none true).1 5 "A" = (0, 0) := by
  refine ⟨by decide, by decide, by decide⟩

/-- C3 (amended): only the `salidas_qr` table declared by escaner.py's
`init_tables` enforces at most one outbound movement per
(id_producto, lote, nro_serie): after a successful insert, a second insert
with the same key is rejected by the uniqueness constraint.  (The
`baja_por_qr` recorder of salida.py stores no serial and accepts a repeated
serial while lot net stock remains, see the counterexample.) -/
theorem c3_salidas_qr_unique (rows rows1 : List SalidaRow)
    (r1 r2 : SalidaRow)
    (hp : r2.idProducto = r1.idProducto) (hl : r2.lote = r1.lote)
    (hs : r2.nroSerie = r1.nroSerie)
    (hok : insert_salida_qr rows r1 = Except.ok rows1) :
    insert_salida_qr rows1 r2 = Except.error "unique violation" := by
  unfold insert_salida_qr at hok ⊢
  split at hok
  · cases hok
  · have hrows1 : rows1 = rows ++ [r1] := by
      injection hok with h
      exact h.symm
    subst hrows1
    rw [if_pos ?_]
    apply List.any_eq_true.mpr
    refine ⟨r1, List.mem_append.mpr (Or.inr (List.mem_singleton.mpr rfl)), ?_⟩
    rw [beq_iff_eq.mpr hp.symm]
    rw [beq_iff_eq.mpr hl.symm]
    rw [beq_iff_eq.mpr hs.symm]
    rfl

/-- Witness for the amended C3: inserting (5, "A", 10) then a second row
with the same key. -/
theorem c3_salidas_qr_unique_witness :
    insert_salida_qr [] salidaRow10 = Except.ok [salidaRow10] ∧
    insert_salida_qr [salidaRow10] salidaRow10'
      = Except.error "unique violation" :=
  ⟨by decide,
   c3_salidas_qr_unique [] [salidaRow10] salidaRow10 salidaRow10'
     (by decide) (by decide) (by decide) (by decide)⟩

/-- Complete characterization of the `for rid, payload in rows` loop of
`flush_outbox`: some prefix of length `k` of the batch is delivered (each
with an acknowledged-success response) and deleted, in order; then either
the batch is exhausted (`ok` with the count), a non-success or malformed
response stops the loop (`ok` with the count), or a raised transport error
propagates (`error`, no count), leaving every message from the failing one
on still queued. -/
theorem flushLoop_spec (wire : SheetsPayload → WireResult) :
    ∀ (rows outbox : List (Nat × SheetsPayload)) (sent : Nat),
      ∃ k, k ≤ rows.length ∧
        (∀ r ∈ rows.take k, ∃ j, send_to_sheets wire r.2 = Except.ok j ∧
          isOkDict j = true) ∧
        (flushLoop wire rows outbox sent).1
          = (rows.take k).foldl (fun ob r => delete_outbox_id ob r.1) outbox ∧
        (((flushLoop wire rows outbox sent).2 = Except.ok (sent + k) ∧
            (k = rows.length ∨ ∃ r j, (rows.drop k).head? = some r ∧
              send_to_sheets wire r.2 = Except.ok j ∧ isOkDict j = false)) ∨
          (∃ r m, (rows.drop k).head? = some r ∧
            send_to_sheets wire r.2 = Except.error m ∧
            (flushLoop wire rows outbox sent).2 = Except.error m)) := by
  intro rows
  induction rows with
  | nil =>
    intro outbox sent
    refine ⟨0, by omega, (by intro r hr; cases hr), rfl,
      Or.inl ⟨?_, Or.inl rfl⟩⟩
    simp [flushLoop]
  | cons hd rest ih =>
    intro outbox sent
    obtain ⟨rid, p⟩ := hd
    cases hs : send_to_sheets wire p with
    | error m =>
      refine ⟨0, by omega, (by intro r hr; cases hr), ?_,
        Or.inr ⟨(rid, p), m, rfl, hs, ?_⟩⟩
      · simp only [flushLoop, hs, List.take_zero, List.foldl_nil]
      · simp only [flushLoop, hs]
    | ok j =>
      by_cases hok : isOkDict j = true
      · obtain ⟨k, hk, hdeliv, hstate, hres⟩ :=
          ih (delete_outbox_id outbox rid) (sent + 1)
        have hstep : flushLoop wire ((rid, p) :: rest) outbox sent
            = flushLoop wire rest (delete_outbox_id outbox rid) (sent + 1) := by
          simp only [flushLoop, hs, if_pos hok]
        refine ⟨k + 1, by simp; omega, ?_, ?_, ?_⟩
        · intro r hr
          rw [List.take_succ_cons] at hr
          rcases List.mem_cons.mp hr with rfl | hr'
          · exact ⟨j, hs, hok⟩
          · exact hdeliv r hr'
        · rw [hstep, List.take_succ_cons, List.foldl_cons]
          exact hstate
        · rw [hstep, List.drop_succ_cons]
          rcases hres with ⟨hres1, hres2⟩ | hres'
          · refine Or.inl ⟨?_, ?_⟩
            · rw [hres1]
              congr 1
              omega
            · rcases hres2 with he | he
              · exact Or.inl (by simp [he])
              · exact Or.inr he
          · exact Or.inr hres'
      · refine ⟨0, by omega, (by intro r hr; cases hr), ?_, Or.inl ⟨?_,
          Or.inr ⟨(rid, p), j, rfl, hs, (by simpa using hok)⟩⟩⟩
        · simp only [flushLoop, hs, if_neg hok, List.take_zero, List.foldl_nil]
        · simp only [flushLoop, hs, if_neg hok]
          rw [Nat.add_zero]

/-- C4 (amended): `flush_outbox` reads the queue in ascending id order (the
batch limit is fixed at 50 in the source), delivers a prefix of it, deleting
a message only on an acknowledged-success response; on a non-success
acknowledgement or malformed response it stops immediately and returns the
count sent so far, but on a transport/HTTP error the exception propagates
out of the function (no count is returned).  In every case the failing
message and all later messages remain queued and no later message is
delivered while an earlier one remains queued: the delivered messages are
exactly the first `k` of the ascending batch. -/
theorem c4_flush_characterization (wire : SheetsPayload → WireResult)
    (outbox : List (Nat × SheetsPayload)) :
    List.Pairwise (fun a b : Nat × SheetsPayload => a.1 ≤ b.1)
      (pop_outbox_batch outbox 50) ∧
    ∃ k, k ≤ (pop_outbox_batch outbox 50).length ∧
      (∀ r ∈ (pop_outbox_batch outbox 50).take k,
        ∃ j, send_to_sheets wire r.2 = Except.ok j ∧ isOkDict j = true) ∧
      (flush_outbox wire outbox).1
        = ((pop_outbox_batch outbox 50).take k).foldl
            (fun ob r => delete_outbox_id ob r.1) outbox ∧
      (((flush_outbox wire outbox).2 = Except.ok k ∧
          (k = (pop_outbox_batch outbox 50).length ∨
            ∃ r j, ((pop_outbox_batch outbox 50).drop k).head? = some r ∧
              send_to_sheets wire r.2 = Except.ok j ∧ isOkDict j = false)) ∨
        (∃ r m, ((pop_outbox_batch outbox 50).drop k).head? = some r ∧
          send_to_sheets wire r.2 = Except.error m ∧
          (flush_outbox wire outbox).2 = Except.error m)) := by
  constructor
  · have htot : ∀ x y : Nat × SheetsPayload,
        (decide (x.1 ≤ y.1)) = true ∨ (decide (y.1 ≤ x.1)) = true := by
      intro x y
      rcases Nat.le_total x.1 y.1 with h | h
      · exact Or.inl (decide_eq_true h)
      · exact Or.inr (decide_eq_true h)
    have htr : ∀ x y z : Nat × SheetsPayload,
        (decide (x.1 ≤ y.1)) = true → (decide (y.1 ≤ z.1)) = true →
        (decide (x.1 ≤ z.1)) = true := by
      intro x y z h1 h2
      exact decide_eq_true (Nat.le_trans (of_decide_eq_true h1)
        (of_decide_eq_true h2))
    have hp := sortL_pairwise (fun a b : Nat × SheetsPayload =>
      decide (a.1 ≤ b.1)) htot htr outbox
    have hp2 : (pop_outbox_batch outbox 50).Pairwise
        (fun a b => (decide (a.1 ≤ b.1)) = true) := by
      unfold pop_outbox_batch
      exact hp.sublist (List.take_sublist _ _)
    exact hp2.imp (fun h => of_decide_eq_true h)
  · obtain ⟨k, hk, hdeliv, hstate, hres⟩ :=
      flushLoop_spec wire (pop_outbox_batch outbox 50) outbox 0
    refine ⟨k, hk, hdeliv, hstate, ?_⟩
    rcases hres with ⟨h1, h2⟩ | h'
    · rw [Nat.zero_add] at h1
      exact Or.inl ⟨h1, h2⟩
    · exact Or.inr h'

/-- C4 counterexample: an outbox with one queued message whose delivery
raises (network down).  `flush_outbox` propagates the exception — the result
is an error, not a sent count — contradicting "on the first failure of any
kind it stops immediately and returns the count of messages sent so far". -/
theorem c4_raise_no_count_counterexample :
    flush_outbox wireRaise outboxC4 = (outboxC4, Except.error "boom") ∧
    (flush_outbox wireRaise outboxC4).2 ≠ Except.ok 0 := by
  refine ⟨by decide, by decide⟩

/- ## Lemmas for the generate-then-parse round trip (C10) -/

theorem splitOnC_ne_nil (sep : Char) : ∀ l : List Char, splitOnC sep l ≠ []
  | [] => by simp [splitOnC]
  | c :: cs => by
    simp only [splitOnC]
    cases h : splitOnC sep cs with
    | nil => exact absurd h (splitOnC_ne_nil sep cs)
    | cons a t =>
      by_cases hc : (c == sep) = true <;> simp [hc]

theorem splitOnC_of_not_mem {sep : Char} :
    ∀ {a : List Char}, sep ∉ a → splitOnC sep a = [a] := by
  intro a
  induction a with
  | nil => intro _; rfl
  | cons c cs ih =>
    intro h
    have hc : (c == sep) = false :=
      beq_eq_false_iff_ne.mpr (fun e => h (e ▸ List.mem_cons_self c cs))
    have hcs : sep ∉ cs := fun hm => h (List.mem_cons_of_mem c hm)
    simp only [splitOnC, ih hcs, hc, Bool.false_eq_true, if_false]

theorem splitOnC_append_sep {sep : Char} :
    ∀ {a : List Char}, sep ∉ a → ∀ rest : List Char,
      splitOnC sep (a ++ sep :: rest) = a :: splitOnC sep rest := by
  intro a
  induction a with
  | nil =>
    intro _ rest
    simp only [List.nil_append, splitOnC]
    cases h : splitOnC sep rest with
    | nil => exact absurd h (splitOnC_ne_nil sep rest)
    | cons x t => simp
  | cons c cs ih =>
    intro h rest
    have hc : (c == sep) = false :=
      beq_eq_false_iff_ne.mpr (fun e => h (e ▸ List.mem_cons_self c cs))
    have hcs : sep ∉ cs := fun hm => h (List.mem_cons_of_mem c hm)
    have hr := ih hcs rest
    simp only [List.cons_append, splitOnC, List.append_eq, hc,
      Bool.false_eq_true, if_false]
    rw [hr]

theorem splitFirst_append_sep {sep : Char} :
    ∀ {a : List Char}, sep ∉ a → ∀ b : List Char,
      splitFirst sep (a ++ sep :: b) = (a, b) := by
  intro a
  induction a with
  | nil =>
    intro _ b
    simp [splitFirst]
  | cons c cs ih =>
    intro h b
    have hc : (c == sep) = false :=
      beq_eq_false_iff_ne.mpr (fun e => h (e ▸ List.mem_cons_self c cs))
    have hcs : sep ∉ cs := fun hm => h (List.mem_cons_of_mem c hm)
    simp only [List.cons_append, splitFirst, hc, Bool.false_eq_true, if_false,
      List.append_eq]
    rw [ih hcs b]

theorem contains_of_mem : ∀ {l : List Char} {c : Char}, c ∈ l →
    l.contains c = true := by
  intro l c
  induction l with
  | nil => intro h; cases h
  | cons a as ih =>
    intro h
    rcases List.mem_cons.mp h with rfl | h'
    · simp [List.contains_cons]
    · simp only [List.contains_cons, ih h', Bool.or_true]

theorem mem_of_mem_dropWhile {p : Char → Bool} :
    ∀ {l : List Char} {c : Char}, c ∈ l.dropWhile p → c ∈ l := by
  intro l
  induction l with
  | nil => intro c h; exact h
  | cons a as ih =>
    intro c h
    rw [List.dropWhile_cons] at h
    by_cases hp : p a = true
    · rw [if_pos hp] at h
      exact List.mem_cons_of_mem a (ih h)
    · rw [if_neg hp] at h
      exact h

theorem mem_of_mem_trimChars {l : List Char} {c : Char}
    (h : c ∈ trimChars l) : c ∈ l := by
  unfold trimChars at h
  rw [List.mem_reverse] at h
  have h1 := mem_of_mem_dropWhile h
  rw [List.mem_reverse] at h1
  exact mem_of_mem_dropWhile h1

theorem dropWhile_cons_of_false {p : Char → Bool} {c : Char} {cs : List Char}
    (h : p c = false) : (c :: cs).dropWhile p = c :: cs := by
  simp [List.dropWhile_cons, h]

theorem trimChars_eq_self_of_ends {l : List Char}
    (hhead : ∀ c, l.head? = some c → isPyWS c = false)
    (hlast : ∀ c, l.getLast? = some c → isPyWS c = false) :
    trimChars l = l := by
  cases l with
  | nil => rfl
  | cons c cs =>
    unfold trimChars
    rw [dropWhile_cons_of_false (hhead c rfl)]
    cases hrev : (c :: cs).reverse with
    | nil => exact absurd hrev (by simp)
    | cons d ds =>
      have hd : (c :: cs).getLast? = some d := by
        rw [← List.head?_reverse, hrev]
        rfl
      rw [dropWhile_cons_of_false (hlast d hd), ← hrev,
        List.reverse_reverse]

theorem mem_of_getLast?_eq :
    ∀ {l : List Char} {c : Char}, l.getLast? = some c → c ∈ l := by
  intro l
  induction l with
  | nil => intro c h; cases h
  | cons a as ih =>
    intro c h
    cases as with
    | nil =>
      have : a = c := by simpa using h
      rw [this]
      exact List.mem_cons_self c []
    | cons b bs =>
      rw [List.getLast?_cons_cons] at h
      exact List.mem_cons_of_mem a (ih h)

theorem not_mem_append_chars {c : Char} {a b : List Char}
    (ha : c ∉ a) (hb : c ∉ b) : c ∉ a ++ b := by
  intro h
  rcases List.mem_append.mp h with h | h
  · exact ha h
  · exact hb h

theorem pad6_digits (n : Nat) : ∀ c ∈ pad6 n, c.isDigit = true :=
  padZeros_all_digits 6 (natToChars_all_digits n)

theorem pad6_ne_nil (n : Nat) : pad6 n ≠ [] :=
  padZeros_ne_nil 6 (natToChars_ne_nil n)

theorem pad6_value (n : Nat) : digitsValue (pad6 n) = n :=
  digitsValue_padZeros 6 n

theorem pad2_digits (n : Nat) : ∀ c ∈ pad2 n, c.isDigit = true :=
  padZeros_all_digits 2 (natToChars_all_digits n)

theorem pad2_ne_nil (n : Nat) : pad2 n ≠ [] :=
  padZeros_ne_nil 2 (natToChars_ne_nil n)

theorem pad4_digits (n : Nat) : ∀ c ∈ pad4 n, c.isDigit = true :=
  padZeros_all_digits 4 (natToChars_all_digits n)

theorem lote_ddmmyy_digits (d m y : Nat) :
    ∀ c ∈ lote_ddmmyy d m y, c.isDigit = true := by
  intro c hc
  unfold lote_ddmmyy at hc
  rcases List.mem_append.mp hc with hc' | hc'
  · rcases List.mem_append.mp hc' with hc'' | hc''
    · exact pad2_digits d c hc''
    · exact pad2_digits m c hc''
  · exact pad2_digits (y % 100) c hc'

theorem lote_ddmmyy_ne_nil (d m y : Nat) : lote_ddmmyy d m y ≠ [] := by
  unfold lote_ddmmyy
  cases hc : pad2 d with
  | nil => exact absurd hc (pad2_ne_nil d)
  | cons a as => simp

theorem renderInt_chars (i : Int) :
    ∀ c ∈ renderInt i, c.isDigit = true ∨ c = '-' := by
  intro c hc
  unfold renderInt at hc
  by_cases h : i < 0
  · rw [if_pos h] at hc
    rcases List.mem_cons.mp hc with rfl | hc'
    · exact Or.inr rfl
    · exact Or.inl (natToChars_all_digits _ c hc')
  · rw [if_neg h] at hc
    exact Or.inl (natToChars_all_digits _ c hc)

theorem renderInt_ne_nil (i : Int) : renderInt i ≠ [] := by
  unfold renderInt
  by_cases h : i < 0
  · rw [if_pos h]
    simp
  · rw [if_neg h]
    exact natToChars_ne_nil _

theorem fecha_iso_chars (y m d : Nat) :
    ∀ c ∈ fecha_iso y m d, c.isDigit = true ∨ c = '-' := by
  intro c hc
  unfold fecha_iso at hc
  rcases List.mem_append.mp hc with hc' | hc'
  · rcases List.mem_append.mp hc' with hc'' | hc''
    · rcases List.mem_append.mp hc'' with h3 | h3
      · rcases List.mem_append.mp h3 with h4 | h4
        · exact Or.inl (pad4_digits y c h4)
        · exact Or.inr (List.mem_singleton.mp h4)
      · exact Or.inl (pad2_digits m c h3)
    · exact Or.inr (List.mem_singleton.mp hc'')
  · exact Or.inl (pad2_digits d c hc')

theorem no_pipe_of_digit_or_dash {l : List Char}
    (h : ∀ c ∈ l, c.isDigit = true ∨ c = '-') : ('|' : Char) ∉ l := by
  intro hm
  rcases h '|' hm with hd | he
  · exact ne_of_isDigit hd (by decide) rfl
  · exact absurd he (by decide)

theorem no_ws_of_digit_or_dash {l : List Char}
    (h : ∀ c ∈ l, c.isDigit = true ∨ c = '-') :
    ∀ c ∈ l, isPyWS c = false := by
  intro c hc
  rcases h c hc with hd | he
  · exact isPyWS_eq_false_of_isDigit hd
  · rw [he]
    decide

theorem no_pipe_of_digits {l : List Char}
    (h : ∀ c ∈ l, c.isDigit = true) : ('|' : Char) ∉ l := by
  intro hm
  exact ne_of_isDigit (h '|' hm) (by decide) rfl

theorem desc_clean_no_pipe (dsc : List Char) :
    ('|' : Char) ∉ Generacion.desc_clean dsc := by
  intro h
  have h1 : ('|' : Char) ∈ trimChars
      (((dsc.map (fun c => if c == '\n' then ' ' else c)).map
        (fun c => if c == '|' then '/' else c)).map
          (fun c => if c == '=' then '-' else c)) :=
    List.take_subset _ _ h
  have h2 := mem_of_mem_trimChars h1
  rcases List.mem_map.mp h2 with ⟨y, hy, hy2⟩
  rcases List.mem_map.mp hy with ⟨z, _, hz2⟩
  by_cases he : (y == '=') = true
  · rw [if_pos he] at hy2
    exact absurd hy2 (by decide)
  · rw [if_neg he] at hy2
    subst hy2
    by_cases hp : (z == '|') = true
    · rw [if_pos hp] at hz2
      exact absurd hz2.symm (by decide)
    · rw [if_neg hp] at hz2
      exact hp (beq_iff_eq.mpr hz2)

theorem desc_clean_no_eq (dsc : List Char) :
    ('=' : Char) ∉ Generacion.desc_clean dsc := by
  intro h
  have h1 : ('=' : Char) ∈ trimChars
      (((dsc.map (fun c => if c == '\n' then ' ' else c)).map
        (fun c => if c == '|' then '/' else c)).map
          (fun c => if c == '=' then '-' else c)) :=
    List.take_subset _ _ h
  have h2 := mem_of_mem_trimChars h1
  rcases List.mem_map.mp h2 with ⟨y, _, hy2⟩
  by_cases he : (y == '=') = true
  · rw [if_pos he] at hy2
    exact absurd hy2 (by decide)
  · rw [if_neg he] at hy2
    exact he (beq_iff_eq.mpr hy2)

theorem isEmpty_false_of_ne_nil {l : List Char} (h : l ≠ []) :
    l.isEmpty = false := by
  cases l with
  | nil => exact absurd rfl h
  | cons a as => rfl

theorem armar_payload_shape (ns : Nat) (pid : Int)
    (dd lote fec vto : List Char) :
    Generacion.armar_payload ns pid dd lote fec vto
      = (['N', 'S', '='] ++ pad6 ns) ++ '|' ::
        ((['P', 'R', 'D', '='] ++ renderInt pid) ++ '|' ::
         ((['D', 'S', 'C', '='] ++ dd) ++ '|' ::
          ((['L', 'O', 'T', '='] ++ lote) ++ '|' ::
           ((['F', 'E', 'C', '='] ++ fec) ++ '|' ::
            (['V', 'T', 'O', '='] ++ vto))))) := by
  simp [Generacion.armar_payload, List.append_assoc]

theorem append_ne_nil_right {a b : List Char} (h : b ≠ []) : a ++ b ≠ [] := by
  intro he
  exact h (List.append_eq_nil.mp he).2

theorem fecha_iso_ne_nil (y m d : Nat) : Generacion.fecha_iso y m d ≠ [] := by
  unfold Generacion.fecha_iso
  exact append_ne_nil_right (pad2_ne_nil d)

set_option maxHeartbeats 1000000 in
/-- The generate-then-parse round trip for an arbitrary payload whose
description part contains no `|` or `=` and whose lot and date parts are of
the shapes the generator produces. -/
theorem payload_roundtrip_general (ns : Nat) (pid : Int)
    (dd lot fec vto : List Char)
    (hdd1 : ('|' : Char) ∉ dd) (_hdd2 : ('=' : Char) ∉ dd)
    (hlot1 : ∀ c ∈ lot, c.isDigit = true) (hlot2 : lot ≠ [])
    (hfec1 : ∀ c ∈ fec, c.isDigit = true ∨ c = '-')
    (hvto1 : ∀ c ∈ vto, c.isDigit = true ∨ c = '-') (hvto2 : vto ≠ []) :
    (splitOnC '|' (Generacion.armar_payload ns pid dd lot fec vto)).length = 6 ∧
    (∀ seg ∈ splitOnC '|' (Generacion.armar_payload ns pid dd lot fec vto),
      seg.contains '=' = true) ∧
    parseQRChars (Generacion.armar_payload ns pid dd lot fec vto)
      = Except.ok ⟨(ns : Int), pid, lot⟩ := by
  have h1 : ('|' : Char) ∉ ['N', 'S', '='] ++ pad6 ns :=
    not_mem_append_chars (by decide) (no_pipe_of_digits (pad6_digits ns))
  have h2 : ('|' : Char) ∉ ['P', 'R', 'D', '='] ++ renderInt pid :=
    not_mem_append_chars (by decide)
      (no_pipe_of_digit_or_dash (renderInt_chars pid))
  have h3 : ('|' : Char) ∉ ['D', 'S', 'C', '='] ++ dd :=
    not_mem_append_chars (by decide) hdd1
  have h4 : ('|' : Char) ∉ ['L', 'O', 'T', '='] ++ lot :=
    not_mem_append_chars (by decide) (no_pipe_of_digits hlot1)
  have h5 : ('|' : Char) ∉ ['F', 'E', 'C', '='] ++ fec :=
    not_mem_append_chars (by decide) (no_pipe_of_digit_or_dash hfec1)
  have h6 : ('|' : Char) ∉ ['V', 'T', 'O', '='] ++ vto :=
    not_mem_append_chars (by decide) (no_pipe_of_digit_or_dash hvto1)
  have hshape := armar_payload_shape ns pid dd lot fec vto
  have hsplit : splitOnC '|' (Generacion.armar_payload ns pid dd lot fec vto)
      = [['N', 'S', '='] ++ pad6 ns, ['P', 'R', 'D', '='] ++ renderInt pid,
         ['D', 'S', 'C', '='] ++ dd, ['L', 'O', 'T', '='] ++ lot,
         ['F', 'E', 'C', '='] ++ fec, ['V', 'T', 'O', '='] ++ vto] := by
    rw [hshape, splitOnC_append_sep h1, splitOnC_append_sep h2,
      splitOnC_append_sep h3, splitOnC_append_sep h4, splitOnC_append_sep h5,
      splitOnC_of_not_mem h6]
  have htrim : trimChars (Generacion.armar_payload ns pid dd lot fec vto)
      = Generacion.armar_payload ns pid dd lot fec vto := by
    apply trimChars_eq_self_of_ends
    · intro c hc
      simp only [Generacion.armar_payload, List.cons_append,
        List.head?_cons] at hc
      injection hc with hc'
      rw [← hc']
      decide
    · intro c hc
      simp only [Generacion.armar_payload, List.append_assoc] at hc
      have e0 : vto ≠ [] := hvto2
      have e1 : ['|', 'V', 'T', 'O', '='] ++ vto ≠ [] := append_ne_nil_right e0
      have e2 : fec ++ (['|', 'V', 'T', 'O', '='] ++ vto) ≠ [] :=
        append_ne_nil_right e1
      have e3 : ['|', 'F', 'E', 'C', '='] ++ (fec ++ (['|', 'V', 'T', 'O', '='] ++ vto)) ≠ [] :=
        append_ne_nil_right e2
      have e4 : lot ++ (['|', 'F', 'E', 'C', '='] ++ (fec ++ (['|', 'V', 'T', 'O', '='] ++ vto))) ≠ [] :=
        append_ne_nil_right e3
      have e5 : ['|', 'L', 'O', 'T', '='] ++ (lot ++ (['|', 'F', 'E', 'C', '='] ++ (fec ++ (['|', 'V', 'T', 'O', '='] ++ vto)))) ≠ [] :=
        append_ne_nil_right e4
      have e6 : dd ++ (['|', 'L', 'O', 'T', '='] ++ (lot ++ (['|', 'F', 'E', 'C', '='] ++ (fec ++ (['|', 'V', 'T', 'O', '='] ++ vto))))) ≠ [] :=
        append_ne_nil_right e5
      have e7 : ['|', 'D', 'S', 'C', '='] ++ (dd ++ (['|', 'L', 'O', 'T', '='] ++ (lot ++ (['|', 'F', 'E', 'C', '='] ++ (fec ++ (['|', 'V', 'T', 'O', '='] ++ vto)))))) ≠ [] :=
        append_ne_nil_right e6
      have e8 : renderInt pid ++ (['|', 'D', 'S', 'C', '='] ++ (dd ++ (['|', 'L', 'O', 'T', '='] ++ (lot ++ (['|', 'F', 'E', 'C', '='] ++ (fec ++ (['|', 'V', 'T', 'O', '='] ++ vto))))))) ≠ [] :=
        append_ne_nil_right e7
      have e9 : ['|', 'P', 'R', 'D', '='] ++ (renderInt pid ++ (['|', 'D', 'S', 'C', '='] ++ (dd ++ (['|', 'L', 'O', 'T', '='] ++ (lot ++ (['|', 'F', 'E', 'C', '='] ++ (fec ++ (['|', 'V', 'T', 'O', '='] ++ vto)))))))) ≠ [] :=
        append_ne_nil_right e8
      have e10 : pad6 ns ++ (['|', 'P', 'R', 'D', '='] ++ (renderInt pid ++ (['|', 'D', 'S', 'C', '='] ++ (dd ++ (['|', 'L', 'O', 'T', '='] ++ (lot ++ (['|', 'F', 'E', 'C', '='] ++ (fec ++ (['|', 'V', 'T', 'O', '='] ++ vto))))))))) ≠ [] :=
        append_ne_nil_right e9
      rw [List.getLast?_append_of_ne_nil _ e10,
        List.getLast?_append_of_ne_nil _ e9,
        List.getLast?_append_of_ne_nil _ e8,
        List.getLast?_append_of_ne_nil _ e7,
        List.getLast?_append_of_ne_nil _ e6,
        List.getLast?_append_of_ne_nil _ e5,
        List.getLast?_append_of_ne_nil _ e4,
        List.getLast?_append_of_ne_nil _ e3,
        List.getLast?_append_of_ne_nil _ e2,
        List.getLast?_append_of_ne_nil _ e1,
        List.getLast?_append_of_ne_nil _ e0] at hc
      exact no_ws_of_digit_or_dash hvto1 c (mem_of_getLast?_eq hc)
  have hcp : (Generacion.armar_payload ns pid dd lot fec vto).contains '|'
      = true := by
    apply contains_of_mem
    rw [hshape]
    exact List.mem_append.mpr (Or.inr (List.mem_cons_self _ _))
  have hce : (Generacion.armar_payload ns pid dd lot fec vto).contains '='
      = true := by
    apply contains_of_mem
    rw [hshape]
    exact List.mem_append.mpr (Or.inl (List.mem_append.mpr (Or.inl (by decide))))
  have hsf1 : splitFirst '=' (['N', 'S', '='] ++ pad6 ns)
      = (['N', 'S'], pad6 ns) := @splitFirst_append_sep '=' ['N', 'S'] (by decide) (pad6 ns)
  have hsf2 : splitFirst '=' (['P', 'R', 'D', '='] ++ renderInt pid)
      = (['P', 'R', 'D'], renderInt pid) :=
    @splitFirst_append_sep '=' ['P', 'R', 'D'] (by decide) (renderInt pid)
  have hsf3 : splitFirst '=' (['D', 'S', 'C', '='] ++ dd)
      = (['D', 'S', 'C'], dd) := @splitFirst_append_sep '=' ['D', 'S', 'C'] (by decide) dd
  have hsf4 : splitFirst '=' (['L', 'O', 'T', '='] ++ lot)
      = (['L', 'O', 'T'], lot) := @splitFirst_append_sep '=' ['L', 'O', 'T'] (by decide) lot
  have hsf5 : splitFirst '=' (['F', 'E', 'C', '='] ++ fec)
      = (['F', 'E', 'C'], fec) := @splitFirst_append_sep '=' ['F', 'E', 'C'] (by decide) fec
  have hsf6 : splitFirst '=' (['V', 'T', 'O', '='] ++ vto)
      = (['V', 'T', 'O'], vto) := @splitFirst_append_sep '=' ['V', 'T', 'O'] (by decide) vto
  have hc1 : ((['N', 'S', '='] ++ pad6 ns).contains '=') = true :=
    contains_of_mem (List.mem_append.mpr (Or.inl (by decide)))
  have hc2 : ((['P', 'R', 'D', '='] ++ renderInt pid).contains '=') = true :=
    contains_of_mem (List.mem_append.mpr (Or.inl (by decide)))
  have hc3 : ((['D', 'S', 'C', '='] ++ dd).contains '=') = true :=
    contains_of_mem (List.mem_append.mpr (Or.inl (by decide)))
  have hc4 : ((['L', 'O', 'T', '='] ++ lot).contains '=') = true :=
    contains_of_mem (List.mem_append.mpr (Or.inl (by decide)))
  have hc5 : ((['F', 'E', 'C', '='] ++ fec).contains '=') = true :=
    contains_of_mem (List.mem_append.mpr (Or.inl (by decide)))
  have hc6 : ((['V', 'T', 'O', '='] ++ vto).contains '=') = true :=
    contains_of_mem (List.mem_append.mpr (Or.inl (by decide)))
  have htv1 : trimChars (pad6 ns) = pad6 ns := trim_of_digits (pad6_digits ns)
  have htv2 : trimChars (renderInt pid) = renderInt pid :=
    trimChars_eq_self (no_ws_of_digit_or_dash (renderInt_chars pid))
  have htv4 : trimChars lot = lot := trim_of_digits hlot1
  have htv5 : trimChars fec = fec :=
    trimChars_eq_self (no_ws_of_digit_or_dash hfec1)
  have htv6 : trimChars vto = vto :=
    trimChars_eq_self (no_ws_of_digit_or_dash hvto1)
  have hk1 : upperChars (trimChars ['N', 'S']) = ['N', 'S'] := by decide
  have hk2 : upperChars (trimChars ['P', 'R', 'D']) = ['P', 'R', 'D'] := by decide
  have hk3 : upperChars (trimChars ['D', 'S', 'C']) = ['D', 'S', 'C'] := by decide
  have hk4 : upperChars (trimChars ['L', 'O', 'T']) = ['L', 'O', 'T'] := by decide
  have hk5 : upperChars (trimChars ['F', 'E', 'C']) = ['F', 'E', 'C'] := by decide
  have hk6 : upperChars (trimChars ['V', 'T', 'O']) = ['V', 'T', 'O'] := by decide
  have hfields : qr_fields (Generacion.armar_payload ns pid dd lot fec vto)
      = [(['V', 'T', 'O'], vto), (['F', 'E', 'C'], fec),
         (['L', 'O', 'T'], lot), (['D', 'S', 'C'], trimChars dd),
         (['P', 'R', 'D'], renderInt pid), (['N', 'S'], pad6 ns)] := by
    unfold qr_fields
    rw [htrim, hsplit]
    simp only [List.foldl_cons, List.foldl_nil, hc1, hc2, hc3, hc4, hc5, hc6,
      if_true, hsf1, hsf2, hsf3, hsf4, hsf5, hsf6, hk1, hk2, hk3, hk4, hk5,
      hk6, htv1, htv2, htv4, htv5, htv6]
  have hNS : qr_get (Generacion.armar_payload ns pid dd lot fec vto)
      ['N', 'S'] = pad6 ns := by
    unfold qr_get
    rw [hfields]
    rfl
  have hPRD : qr_get (Generacion.armar_payload ns pid dd lot fec vto)
      ['P', 'R', 'D'] = renderInt pid := by
    unfold qr_get
    rw [hfields]
    rfl
  have hLOT : qr_get (Generacion.armar_payload ns pid dd lot fec vto)
      ['L', 'O', 'T'] = lot := by
    unfold qr_get
    rw [hfields]
    rfl
  refine ⟨?_, ?_, ?_⟩
  · rw [hsplit]
    rfl
  · intro seg hseg
    rw [hsplit] at hseg
    simp only [List.mem_cons] at hseg
    rcases hseg with rfl | rfl | rfl | rfl | rfl | rfl | h
    · exact hc1
    · exact hc2
    · exact hc3
    · exact hc4
    · exact hc5
    · exact hc6
    · cases h
  · simp only [parseQRChars]
    rw [htrim]
    rw [if_pos (by rw [hcp, hce]; decide :
      ((Generacion.armar_payload ns pid dd lot fec vto).contains '|' &&
        (Generacion.armar_payload ns pid dd lot fec vto).contains '=') = true)]
    rw [hNS, hPRD, hLOT]
    have hempty : ¬ (((pad6 ns).isEmpty || (renderInt pid).isEmpty
        || lot.isEmpty) = true) := by
      rw [isEmpty_false_of_ne_nil (pad6_ne_nil ns),
        isEmpty_false_of_ne_nil (renderInt_ne_nil pid),
        isEmpty_false_of_ne_nil hlot2]
      decide
    rw [if_neg hempty]
    have hpi1 : pyIntChars (pad6 ns) = some ((ns : Nat) : Int) := by
      rw [pyIntChars_digits (pad6_ne_nil ns) (pad6_digits ns), pad6_value]
    have hpi2 := pyIntChars_renderInt pid
    simp only [hpi1, hpi2]
    rw [htv4]

/-- C10: every QR payload built by the label generator (with the sanitized
description — `|`→`/`, `=`→`-`, newline→space, stripped, truncated to 90
characters — a ddmmyy lot code and ISO dates) consists of exactly six
`key=value` segments, and parsing it with the scan parser succeeds and
returns the same serial number, product id and lot that were encoded. -/
theorem c10_generate_parse_roundtrip (serial : Nat) (pid : Int)
    (descripcion : List Char) (d m y d2 m2 y2 : Nat) :
    (splitOnC '|' (Generacion.armar_payload serial pid
        (Generacion.desc_clean descripcion) (Generacion.lote_ddmmyy d m y)
        (Generacion.fecha_iso y m d) (Generacion.fecha_iso y2 m2 d2))).length
      = 6 ∧
    (∀ seg ∈ splitOnC '|' (Generacion.armar_payload serial pid
        (Generacion.desc_clean descripcion) (Generacion.lote_ddmmyy d m y)
        (Generacion.fecha_iso y m d) (Generacion.fecha_iso y2 m2 d2)),
      seg.contains '=' = true) ∧
    parseQRChars (Generacion.armar_payload serial pid
        (Generacion.desc_clean descripcion) (Generacion.lote_ddmmyy d m y)
        (Generacion.fecha_iso y m d) (Generacion.fecha_iso y2 m2 d2))
      = Except.ok ⟨(serial : Int), pid, Generacion.lote_ddmmyy d m y⟩ :=
  payload_roundtrip_general serial pid (Generacion.desc_clean descripcion)
    (Generacion.lote_ddmmyy d m y) (Generacion.fecha_iso y m d)
    (Generacion.fecha_iso y2 m2 d2)
    (desc_clean_no_pipe descripcion) (desc_clean_no_eq descripcion)
    (lote_ddmmyy_digits d m y) (lote_ddmmyy_ne_nil d m y)
    (fecha_iso_chars y m d) (fecha_iso_chars y2 m2 d2)
    (fecha_iso_ne_nil y2 m2 d2)

end ProyectoQR
